import Mathlib

/-!
Verification development for the MPEG-4 muxer core
(`src/media/libstagefright/MPEG4Writer.cpp`).

The C++ code is shallowly embedded: the writer's box-emission machinery
(`MPEG4Writer::write`, `beginBox`, `endBox`, `stop`) becomes a state machine
over `MPEG4Writer.WState`; the per-sample indexing body of
`MPEG4Writer::Track::threadEntry` becomes a fold over accepted samples;
`makeAVCCodecSpecificData` becomes a function over byte lists.  Machine
integers are modelled as `Nat`/`Int` with explicit reductions modulo
`2 ^ 32` / `2 ^ 64` where the C code converts.
-/

namespace MPEG4Writer

/-- A byte value reduced modulo 256, as stored through a `uint8_t` assignment. -/
def byteOf (v : Nat) : Nat := v % 256

/-- Interpretation of an `Int` as `uint32_t` (two's complement conversion),
as performed by `htonl` on an `int32_t`/difference expression. -/
def uint32OfInt (x : Int) : Nat := (x % (2 ^ 32)).toNat

/-- Interpretation of an `Int` as `uint64_t`, as performed by `hton64`. -/
def uint64OfInt (x : Int) : Nat := (x % (2 ^ 64)).toNat

/-- Interpretation of an `Int` as a single byte (`uint8_t` conversion). -/
def byteOfInt (x : Int) : Nat := (x % 256).toNat

/-- Big-endian bytes of a 32-bit value (network byte order, `htonl`). -/
def be32 (v : Nat) : List Nat :=
  [v / 2 ^ 24 % 256, v / 2 ^ 16 % 256, v / 2 ^ 8 % 256, v % 256]

/-- Big-endian bytes of an `Int` written through `writeInt32` (`htonl`). -/
def be32i (x : Int) : List Nat := be32 (uint32OfInt x)

/-- Big-endian bytes of an `Int` written through `writeInt16` (`htons`). -/
def be16i (x : Int) : List Nat :=
  [uint32OfInt x / 256 % 256, uint32OfInt x % 256]

/-- Big-endian bytes of an `Int` written through `writeInt64` (`hton64`). -/
def be64i (x : Int) : List Nat :=
  [uint64OfInt x / 2 ^ 56 % 256, uint64OfInt x / 2 ^ 48 % 256,
   uint64OfInt x / 2 ^ 40 % 256, uint64OfInt x / 2 ^ 32 % 256,
   uint64OfInt x / 2 ^ 24 % 256, uint64OfInt x / 2 ^ 16 % 256,
   uint64OfInt x / 2 ^ 8 % 256, uint64OfInt x % 256]

/-- Overwrite the bytes of `f` at positions `[pos, pos + bs.length)` with `bs`
(each byte reduced mod 256); positions outside that range keep their value.
This models `fwrite`/`memcpy` into a seekable byte sink or buffer. -/
def writeAt (f : Nat → Nat) (pos : Nat) (bs : List Nat) : Nat → Nat :=
  fun i => if pos ≤ i ∧ i < pos + bs.length then byteOf (bs.getD (i - pos) 0) else f i

/-- Read back a 4-byte big-endian value at position `p`. -/
def read32 (f : Nat → Nat) (p : Nat) : Nat :=
  f p * 2 ^ 24 + f (p + 1) * 2 ^ 16 + f (p + 2) * 2 ^ 8 + f (p + 3)

/-- Writer emission state: the fields of `MPEG4Writer` that the box-emission
primitives touch (member names without the `m` prefix).  `file` is the byte
content of the output file, `filePos` the `FILE*` position (moved by `fseeko`
and by writes), `offset` the logical `mOffset`, `boxes` the `mBoxes` stack of
saved length-field positions, and the `moovBox*` fields the in-memory moov
staging area of `stop()`. -/
structure WState where
  file : Nat → Nat
  filePos : Nat
  offset : Nat
  writeMoovBoxToMemory : Bool
  moovBoxBuffer : Nat → Nat
  moovBoxBufferOffset : Nat
  estimatedMoovBoxSize : Nat
  boxes : List Nat
  streamableFile : Bool

/-- The bytes currently staged in the moov buffer (`mMoovBoxBuffer[0 .. mMoovBoxBufferOffset)`). -/
def bufBytes (s : WState) : List Nat :=
  (List.range s.moovBoxBufferOffset).map s.moovBoxBuffer

/-- Embedding of `MPEG4Writer::write(ptr, size, nmemb, stream)` (lines 371-399):
in moov-to-memory mode the bytes are appended to the buffer unless they would
exceed the reserved size, in which case every saved position on the box stack
is rebased by adding the current file offset, the buffered prefix is flushed
to the file at `offset`, the new bytes follow, and the writer permanently
leaves memory mode with `streamableFile` cleared; in file mode the bytes are
written at the current file position and `offset` advances. -/
def write (bs : List Nat) (s : WState) : WState :=
  if s.writeMoovBoxToMemory then
    if 8 + s.moovBoxBufferOffset + bs.length > s.estimatedMoovBoxSize then
      { s with
        boxes := s.boxes.map (· + s.offset),
        file := writeAt (writeAt s.file s.offset (bufBytes s))
                  (s.offset + s.moovBoxBufferOffset) bs,
        filePos := s.offset + s.moovBoxBufferOffset + bs.length,
        offset := s.offset + (bs.length + s.moovBoxBufferOffset),
        moovBoxBufferOffset := 0,
        writeMoovBoxToMemory := false,
        streamableFile := false }
    else
      { s with
        moovBoxBuffer := writeAt s.moovBoxBuffer s.moovBoxBufferOffset bs,
        moovBoxBufferOffset := s.moovBoxBufferOffset + bs.length }
  else
    { s with
      file := writeAt s.file s.filePos bs,
      filePos := s.filePos + bs.length,
      offset := s.offset + bs.length }

/-- Embedding of `MPEG4Writer::beginBox` (lines 401-409): push the current
emission position (buffer offset in memory mode, file offset otherwise), then
write a zero 4-byte length placeholder followed by the FourCC.  The source
`CHECK_EQ(strlen(fourcc), 4)` is carried as a hypothesis where needed. -/
def beginBox (fourcc : List Nat) (s : WState) : WState :=
  let s1 := { s with
    boxes := s.boxes ++
      [if s.writeMoovBoxToMemory then s.moovBoxBufferOffset else s.offset] }
  write fourcc (write (be32i 0) s1)

/-- Embedding of `MPEG4Writer::endBox` (lines 411-426): pop the saved
position; in memory mode `memcpy` the big-endian length
`moovBoxBufferOffset - saved` into the buffer; in file mode seek to the saved
position, write the length `offset - saved` through `writeInt32` (which
advances `offset` by 4), subtract those 4 bytes from `offset` again and seek
back.  With an empty stack (`CHECK(!mBoxes.empty())` would abort) the state
is returned unchanged. -/
def endBox (s : WState) : WState :=
  match s.boxes.getLast? with
  | none => s
  | some off =>
    let s0 := { s with boxes := s.boxes.dropLast }
    if s.writeMoovBoxToMemory then
      { s0 with
        moovBoxBuffer := writeAt s0.moovBoxBuffer off
          (be32i ((s0.moovBoxBufferOffset : Int) - (off : Int))) }
    else
      let s1 := { s0 with filePos := off }
      let s2 := write (be32i ((s1.offset : Int) - (off : Int))) s1
      let s3 := { s2 with offset := s2.offset - 4 }
      { s3 with filePos := s3.offset }

/-- One primitive emission step as issued by the box-writing code: a
`beginBox`, an `endBox`, or a single `MPEG4Writer::write` call (each
`writeInt8/16/32/64`, `writeFourcc`, `writeCString` and raw `write` in the
source is one such call). -/
inductive Cmd where
  | beginB (fourcc : List Nat)
  | endB
  | put (bs : List Nat)

/-- Interpret one command on the writer state. -/
def stepCmd (c : Cmd) (s : WState) : WState :=
  match c with
  | .beginB fc => beginBox fc s
  | .endB => endBox s
  | .put bs => write bs s

/-- Run a command sequence left to right. -/
def runCmds (cmds : List Cmd) (s : WState) : WState :=
  cmds.foldl (fun s c => stepCmd c s) s

/-- Number of output-stream bytes a command emits (a `beginB` emits the 4-byte
length placeholder plus the FourCC; `endB` only patches, net zero). -/
def emitted (c : Cmd) : Nat :=
  match c with
  | .beginB fc => 4 + fc.length
  | .endB => 0
  | .put bs => bs.length

/-- Total bytes emitted by a command sequence. -/
def emittedBytes (cmds : List Cmd) : Nat := (cmds.map emitted).sum

/-- Well-bracketedness of a command sequence at nesting surplus `d`: every
`endB` matches an earlier `beginB` of the sequence and the surplus returns to
zero at the end. -/
def balancedFrom : List Cmd → Nat → Bool
  | [], d => d == 0
  | .beginB _ :: cs, d => balancedFrom cs (d + 1)
  | .endB :: cs, d =>
    match d with
    | 0 => false
    | d' + 1 => balancedFrom cs d'
  | .put _ :: cs, d => balancedFrom cs d

/-- The absolute output-stream position a saved box-stack entry denotes: in
memory mode entries are buffer-relative and the buffered prefix will be
emitted at `offset`, in file mode they are file-absolute. -/
def pabs (s : WState) (p : Nat) : Nat :=
  if s.writeMoovBoxToMemory then s.offset + p else p

/-- The absolute output-stream emission cursor. -/
def cursor (s : WState) : Nat :=
  if s.writeMoovBoxToMemory then s.offset + s.moovBoxBufferOffset else s.offset

/-- Abstraction of the writer state for the bracketing argument: the stack of
absolute saved positions together with the emission cursor. -/
def absState (s : WState) : List Nat × Nat :=
  (s.boxes.map (pabs s), cursor s)

/-- Abstract effect of one command on `absState`. -/
def absStep (c : Cmd) (a : List Nat × Nat) : List Nat × Nat :=
  match c with
  | .beginB fc => (a.1 ++ [a.2], a.2 + (4 + fc.length))
  | .endB => (a.1.dropLast, a.2)
  | .put bs => (a.1, a.2 + bs.length)

/-- Abstract run. -/
def absRun (cmds : List Cmd) (a : List Nat × Nat) : List Nat × Nat :=
  cmds.foldl (fun a c => absStep c a) a

/-- The 4-byte big-endian value `endBox` patches into the length field of the
box on top of the stack of `s`, read back from the patch target (moov buffer
in memory mode, file otherwise). -/
def patchedLen (s : WState) : Nat :=
  match s.boxes.getLast? with
  | none => 0
  | some p =>
    if s.writeMoovBoxToMemory then read32 (endBox s).moovBoxBuffer p
    else read32 (endBox s).file p

/-- Embedding of `MPEG4Writer::setStartTimestamp` (lines 503-510) acting on
the stored `mStartTimestampUs`: a call is a no-op whenever the stored value is
already nonzero, otherwise it stores its argument.  (`start()` initialises the
stored value to 0.) -/
def setStartTimestamp (stored : Int) (timeUs : Int) : Int :=
  if stored ≠ 0 then stored else timeUs

/-- A sequence of `setStartTimestamp` calls applied to a stored value. -/
def applyStartCalls (stored : Int) (calls : List Int) : Int :=
  calls.foldl setStartTimestamp stored

/-- Embedding of the static helper `StripStartcode` (lines 322-334) on the
byte list of a sample: drop a leading `00 00 00 01` start code when the
buffer has at least 4 bytes and starts with one. -/
def stripStartcode (bs : List Nat) : List Nat :=
  if bs.length < 4 then bs
  else if bs.take 4 = [0, 0, 0, 1] then bs.drop 4 else bs

/-- Does a `00 00 00 01` start code occur at byte position `i` of `d`?
(This is `memcmp(&d[i], "\x00\x00\x00\x01", 4) == 0` together with the bound
`i + 4 ≤ d.length`.) -/
def startCodeAt (d : List Nat) (i : Nat) : Bool :=
  (d.drop i).take 4 == [0, 0, 0, 1]

/-- The scan loop of `makeAVCCodecSpecificData` (lines 648-652): starting at
`off`, advance while `off + 3 < size` and no start code begins at `off`;
return the final offset. -/
def scanPicParam (d : List Nat) (off : Nat) : Nat :=
  if off + 3 < d.length then
    if startCodeAt d off then off else scanPicParam d (off + 1)
  else off
termination_by d.length - off

/-- Embedding of `MPEG4Writer::Track::makeAVCCodecSpecificData`
(lines 634-689) over the byte list of the input buffer.  `haveCodecSpecificData`
models `mCodecSpecificData != NULL`.  The result is `none` on the
`ERROR_MALFORMED` paths (on which the source stores nothing) and
`some record` with the assembled AVC decoder-configuration bytes otherwise.
Length bytes are stored through `uint8_t` assignments, hence the mod-256
reductions. -/
def makeAVCCodecSpecificData (haveCodecSpecificData : Bool) (d : List Nat) :
    Option (List Nat) :=
  if haveCodecSpecificData then none
  else if ¬ (d.take 4 = [0, 0, 0, 1]) then none
  else
    let picParamOffset := scanPicParam d 4
    if picParamOffset + 3 ≥ d.length then none
    else
      let seqParamSetLength := picParamOffset - 4
      let picParamSetLength := d.length - picParamOffset - 4
      some ([1, 0x42, 0x80, 0x1e, 0xfc ||| 3, 0xe0 ||| 1,
             seqParamSetLength / 256 % 256, seqParamSetLength % 256]
            ++ (d.drop 4).take seqParamSetLength
            ++ [1, picParamSetLength / 256 % 256, picParamSetLength % 256]
            ++ d.drop (picParamOffset + 4))

/-- Events raised through `mOwner->notify(MEDIA_RECORDER_EVENT_INFO, ..)`. -/
inductive Event where
  | maxFileSizeReached
  | maxDurationReached
  | stopPrematurely
deriving DecidableEq

/-- An accepted sample as it reaches the per-sample indexing block of
`Track::threadEntry` (line 829 onward): the deep-copied payload bytes, the
`kKeyIsSyncFrame` flag and the `kKeyTime` timestamp in microseconds. -/
structure Sample where
  data : List Nat
  isSync : Bool
  timestampUs : Int

/-- One `SampleInfo` entry (size in bytes, timestamp in milliseconds). -/
structure SampleInfo where
  size : Nat
  timestamp : Int
deriving DecidableEq

/-- One `StscTableEntry`. -/
structure StscTableEntry where
  firstChunk : Nat
  samplesPerChunk : Nat
  sampleDescriptionId : Nat
deriving DecidableEq

/-- The track-side state built by `Track::threadEntry`: the member tables of
`Track` together with the locals of the producer loop (`sampleCount`,
`lastTimestamp`, `lastDuration`, `previousSampleSize`, `chunkTimestampUs`,
`nChunks`) and the slice of the owning writer the loop touches (`ownerOffset`
for `mOwner->mOffset`, `ownerStartTimestampUs` for the writer's
`mStartTimestampUs`, `events` for the notifications raised).  `chunkSamples`
records the pending payload lengths (after start-code stripping). -/
structure TrackState where
  sampleInfos : List SampleInfo
  samplesHaveSameSize : Bool
  chunkSamples : List Nat
  chunkOffsets : List Nat
  stscTableEntries : List StscTableEntry
  stssTableEntries : List Nat
  sttsTableEntries : List (Nat × Nat)
  maxTimeStampUs : Int
  estimatedTrackSizeBytes : Nat
  startTimestampUs : Int
  reachedEOS : Bool
  sampleCount : Nat
  lastTimestamp : Int
  lastDuration : Int
  previousSampleSize : Nat
  chunkTimestampUs : Int
  nChunks : Nat
  ownerOffset : Nat
  ownerStartTimestampUs : Int
  events : List Event

/-- The state at the top of `threadEntry` (constructor lines 520-533 and loop
locals, lines 699-707), with the owning writer's sample-append offset at
`ownerOffset`. -/
def initTrack (ownerOffset : Nat) : TrackState :=
  { sampleInfos := []
    samplesHaveSameSize := true
    chunkSamples := []
    chunkOffsets := []
    stscTableEntries := []
    stssTableEntries := []
    sttsTableEntries := []
    maxTimeStampUs := 0
    estimatedTrackSizeBytes := 0
    startTimestampUs := 0
    reachedEOS := false
    sampleCount := 1
    lastTimestamp := 0
    lastDuration := 0
    previousSampleSize := 0
    chunkTimestampUs := 0
    nChunks := 0
    ownerOffset := ownerOffset
    ownerStartTimestampUs := 0
    events := [] }

/-- Embedding of `Track::writeOneChunk` (lines 957-975): append the pending
samples to the file under the writer lock (`addLengthPrefixedSample_l` for
AVC, `addSample_l` otherwise), record the first sample's pre-write offset as
the chunk offset, then release and clear the pending list. -/
def writeOneChunk (isAvc : Bool) (st : TrackState) : TrackState :=
  let st1 :=
    match st.chunkSamples with
    | [] => st
    | _ :: _ => { st with chunkOffsets := st.chunkOffsets ++ [st.ownerOffset] }
  { st1 with
    ownerOffset :=
      st.chunkSamples.foldl (fun o len => o + (if isAvc then len + 4 else len))
        st.ownerOffset,
    chunkSamples := [] }

/-- The `SampleInfo` computed for one accepted sample (`threadEntry`
lines 839-848 and 879): the payload length after AVC start-code stripping,
plus 4 for the AVC length prefix, and the half-up rounded millisecond
timestamp (line 879, C truncating division). -/
def infoOf (isAvc : Bool) (smp : Sample) : SampleInfo :=
  { size :=
      if isAvc then (stripStartcode smp.data).length + 4 else smp.data.length
    timestamp := Int.tdiv (smp.timestampUs + 500) 1000 }

/-- Size accounting (line 851). -/
def accountSize (infoSize : Nat) (st : TrackState) : TrackState :=
  { st with estimatedTrackSizeBytes := st.estimatedTrackSizeBytes + infoSize }

/-- Start-timestamp election on the first accepted sample (lines 869-872):
call the writer's `setStartTimestamp`, then set the track's relative start. -/
def electStartTimestamp (timestampUs : Int) (st : TrackState) : TrackState :=
  if st.sampleInfos.isEmpty then
    { st with
      ownerStartTimestampUs := setStartTimestamp st.ownerStartTimestampUs timestampUs,
      startTimestampUs :=
        timestampUs - setStartTimestamp st.ownerStartTimestampUs timestampUs }
  else st

/-- Running maximum of sample timestamps (lines 874-876). -/
def updateMaxTimestamp (timestampUs : Int) (st : TrackState) : TrackState :=
  if timestampUs > st.maxTimeStampUs then { st with maxTimeStampUs := timestampUs }
  else st

/-- Append the sample's `SampleInfo` (line 880). -/
def appendSampleInfo (info : SampleInfo) (st : TrackState) : TrackState :=
  { st with sampleInfos := st.sampleInfos ++ [info] }

/-- The `stts` run-length update (lines 881-889), performed once more than
two samples were seen: on a changed delta flush the open
`(sampleCount, lastDuration)` run and restart counting, otherwise extend it. -/
def updateStts (tsMs : Int) (st : TrackState) : TrackState :=
  if st.sampleInfos.length > 2 then
    if st.lastDuration ≠ tsMs - st.lastTimestamp then
      { st with
        sttsTableEntries :=
          st.sttsTableEntries ++ [(st.sampleCount, uint32OfInt st.lastDuration)],
        sampleCount := 1 }
    else { st with sampleCount := st.sampleCount + 1 }
  else st

/-- Same-size tracking (lines 890-895). -/
def updateSameSize (infoSize : Nat) (st : TrackState) : TrackState :=
  if st.samplesHaveSameSize then
    { st with
      samplesHaveSameSize :=
        ¬ (st.sampleInfos.length ≥ 2 ∧ st.previousSampleSize ≠ infoSize),
      previousSampleSize := infoSize }
  else st

/-- Update of `lastDuration`/`lastTimestamp` (lines 896-897). -/
def updateLastTimes (tsMs : Int) (st : TrackState) : TrackState :=
  { st with lastDuration := tsMs - st.lastTimestamp, lastTimestamp := tsMs }

/-- Sync-sample recording (lines 899-901): the 1-based sample index. -/
def appendStss (isSync : Bool) (st : TrackState) : TrackState :=
  if isSync then
    { st with stssTableEntries := st.stssTableEntries ++ [st.sampleInfos.length] }
  else st

/-- The timestamp/index bookkeeping for one accepted sample: `threadEntry`
lines 839-901, as the composition of the stages above in source order. -/
def noteSample (isAvc : Bool) (st : TrackState) (smp : Sample) : TrackState :=
  appendStss smp.isSync
    (updateLastTimes (infoOf isAvc smp).timestamp
      (updateSameSize (infoOf isAvc smp).size
        (updateStts (infoOf isAvc smp).timestamp
          (appendSampleInfo (infoOf isAvc smp)
            (updateMaxTimestamp smp.timestampUs
              (electStartTimestamp smp.timestampUs
                (accountSize (infoOf isAvc smp).size st)))))))

/-- Append the sample's payload length to the pending chunk (line 904). -/
def appendChunkSample (len : Nat) (st : TrackState) : TrackState :=
  { st with chunkSamples := st.chunkSamples ++ [len] }

/-- The zero-interleave path (lines 905-908): every sample is its own chunk,
with an unconditional `stsc` entry `(++nChunks, 1, 1)`. -/
def flushSingleSampleChunk (isAvc : Bool) (st : TrackState) : TrackState :=
  writeOneChunk isAvc
    { st with
      nChunks := st.nChunks + 1,
      stscTableEntries := st.stscTableEntries ++ [⟨st.nChunks + 1, 1, 1⟩] }

/-- The `stsc` entry decision at an interleaved chunk boundary
(lines 915-921): a new `(nChunks+1, samples, 1)` entry is recorded only for
the first chunk or when the samples-per-chunk count differs from the last
recorded entry's. -/
def recordStscEntryIfNeeded (st : TrackState) : TrackState :=
  if st.nChunks + 1 = 1 ∨
      (st.stscTableEntries.getLast?.getD ⟨0, 0, 0⟩).samplesPerChunk ≠
        st.chunkSamples.length then
    { st with
      stscTableEntries :=
        st.stscTableEntries ++ [⟨st.nChunks + 1, st.chunkSamples.length, 1⟩] }
  else st

/-- The interleaved path (lines 909-925): anchor `chunkTimestampUs` when it
is zero; once the current sample's timestamp exceeds the anchor by more than
the interleave duration, increment `nChunks`, record an `stsc` entry unless
the previous entry already has the same samples-per-chunk count, flush, and
re-anchor. -/
def interleavedMaybeFlush (isAvc : Bool) (interleaveDurationUs : Nat)
    (timestampUs : Int) (st : TrackState) : TrackState :=
  if st.chunkTimestampUs = 0 then { st with chunkTimestampUs := timestampUs }
  else if timestampUs - st.chunkTimestampUs > (interleaveDurationUs : Int) then
    writeOneChunk isAvc
      { recordStscEntryIfNeeded st with
        nChunks := st.nChunks + 1, chunkTimestampUs := timestampUs }
  else st

/-- The chunk-interleaving step for one accepted sample: `threadEntry`
lines 904-926. -/
def enqueueChunkSample (isAvc : Bool) (interleaveDurationUs : Nat)
    (st : TrackState) (smp : Sample) : TrackState :=
  if interleaveDurationUs = 0 then
    flushSingleSampleChunk isAvc
      (appendChunkSample
        (if isAvc then (stripStartcode smp.data).length else smp.data.length) st)
  else
    interleavedMaybeFlush isAvc interleaveDurationUs smp.timestampUs
      (appendChunkSample
        (if isAvc then (stripStartcode smp.data).length else smp.data.length) st)

/-- Processing of one accepted sample by the producer loop body
(`threadEntry` lines 829-927). -/
def processSample (isAvc : Bool) (interleaveDurationUs : Nat)
    (st : TrackState) (smp : Sample) : TrackState :=
  enqueueChunkSample isAvc interleaveDurationUs (noteSample isAvc st smp) smp

/-- Raise `INFO_STOP_PREMATURELY` when no sample was accepted
(lines 930-932). -/
def notePremature (st : TrackState) : TrackState :=
  if st.sampleInfos.isEmpty then
    { st with events := st.events ++ [Event.stopPrematurely] }
  else st

/-- Flush the final pending chunk with a forced `stsc` entry
(lines 935-940). -/
def flushLastChunk (isAvc : Bool) (st : TrackState) : TrackState :=
  if st.chunkSamples.isEmpty then st
  else
    writeOneChunk isAvc
      { st with
        nChunks := st.nChunks + 1,
        stscTableEntries :=
          st.stscTableEntries ++ [⟨st.nChunks + 1, st.chunkSamples.length, 1⟩] }

/-- The single-sample special case closing the `stts` table (lines 945-949):
a single sample gets duration 0, otherwise the final sample is counted into
the open run. -/
def closeSttsAdjust (st : TrackState) : TrackState :=
  if st.sampleInfos.length = 1 then { st with lastDuration := 0 }
  else { st with sampleCount := st.sampleCount + 1 }

/-- Append the closing `stts` entry (lines 950-951). -/
def appendFinalStts (st : TrackState) : TrackState :=
  { st with
    sttsTableEntries :=
      st.sttsTableEntries ++ [(st.sampleCount, uint32OfInt st.lastDuration)] }

/-- The loop epilogue of `threadEntry` (lines 930-952). -/
def finishTrack (isAvc : Bool) (st : TrackState) : TrackState :=
  { appendFinalStts (closeSttsAdjust (flushLastChunk isAvc (notePremature st))) with
    reachedEOS := true }

/-- A complete producer run over a list of accepted samples: the samples that
reach the indexing block of `threadEntry` (zero-length buffers, codec-config
buffers and the sample cut off by a file-size/duration-limit break never get
there), followed by the loop epilogue. -/
def trackRun (isAvc : Bool) (interleaveDurationUs : Nat)
    (samples : List Sample) : TrackState :=
  finishTrack isAvc
    (samples.foldl (processSample isAvc interleaveDurationUs) (initTrack 0))

/-- Sum of the `sampleCount` fields of an `stts` table. -/
def sttsCountSum (l : List (Nat × Nat)) : Nat := (l.map Prod.fst).sum

/-- Sum over the runs of an `stsc` table of samples-per-chunk times the
number of chunks in the run: entry `e` covers the chunks from `e.firstChunk`
up to (excluding) the next entry's `firstChunk`, the last entry up to and
including chunk `totalChunks`. -/
def stscSum : List StscTableEntry → Nat → Nat
  | [], _ => 0
  | [e], totalChunks => e.samplesPerChunk * (totalChunks + 1 - e.firstChunk)
  | e :: e2 :: rest, totalChunks =>
    e.samplesPerChunk * (e2.firstChunk - e.firstChunk) + stscSum (e2 :: rest) totalChunks

/-- One `writeInt8` call. -/
def wInt8 (x : Int) : Cmd := .put [byteOfInt x]

/-- One `writeInt16` call. -/
def wInt16 (x : Int) : Cmd := .put (be16i x)

/-- One `writeInt32` call. -/
def wInt32 (x : Int) : Cmd := .put (be32i x)

/-- One `writeInt64` call. -/
def wInt64 (x : Int) : Cmd := .put (be64i x)

/-- The recognised MIME types (chain of `strcasecmp` comparisons in
`writeTrackHeader` and `threadEntry`; unrecognised types abort through
`CHECK(!"should not be here ...")` and are excluded from the model). -/
inductive Mime where
  | amrNB | amrWB | aac | mpeg4 | h263 | avc
deriving DecidableEq

/-- Audio/video discrimination: `!strncasecmp(mime, "audio/", 6)`. -/
def Mime.isAudio : Mime → Bool
  | .amrNB | .amrWB | .aac => true
  | _ => false

/-- The track format metadata consumed by `writeTrackHeader` (`kKeyWidth`,
`kKeyHeight`, `kKeyChannelCount`, `kKeySampleRate`; the source `CHECK`s their
presence, so they are plain fields here). -/
structure TrackMeta where
  mime : Mime
  width : Int
  height : Int
  channelCount : Int
  sampleRate : Int

/-- The sample-description (`stsd`) subtree of `writeTrackHeader`
(lines 1100-1257), assuming the video-path `CHECK(23 + size < 128)` passed
(the caller gates on it). -/
def stsdCmds (meta : TrackMeta) (csd : List Nat) : List Cmd :=
  [.beginB [0x73, 0x74, 0x73, 0x64],                -- stsd
   wInt32 0, wInt32 1] ++
  (if meta.mime.isAudio then
    [.beginB (match meta.mime with
      | .amrNB => [0x73, 0x61, 0x6d, 0x72]          -- samr
      | .amrWB => [0x73, 0x61, 0x77, 0x62]          -- sawb
      | _ => [0x6d, 0x70, 0x34, 0x61]),             -- mp4a
     wInt32 0, wInt16 0, wInt16 0x1, wInt32 0, wInt32 0,
     wInt16 meta.channelCount, wInt16 16, wInt16 0, wInt16 0,
     wInt32 (meta.sampleRate * 65536)] ++
    (if meta.mime = Mime.aac then
      [.beginB [0x65, 0x73, 0x64, 0x73],            -- esds
       wInt32 0, wInt8 0x03, wInt8 (23 + (csd.length : Int)), wInt16 0x0000,
       wInt8 0x00, wInt8 0x04, wInt8 (15 + (csd.length : Int)), wInt8 0x40,
       wInt8 0x15, wInt16 0x03, wInt8 0x00, wInt32 96000, wInt32 96000,
       wInt8 0x05, wInt8 (csd.length : Int), .put csd,
       .put [0x06, 0x01, 0x02], .endB]
     else []) ++
    [.endB]
  else
    [.beginB (match meta.mime with
      | .mpeg4 => [0x6d, 0x70, 0x34, 0x76]          -- mp4v
      | .h263 => [0x73, 0x32, 0x36, 0x33]           -- s263
      | _ => [0x61, 0x76, 0x63, 0x31]),             -- avc1
     wInt32 0, wInt16 0, wInt16 0, wInt16 0, wInt16 0,
     wInt32 0, wInt32 0, wInt32 0,
     wInt16 meta.width, wInt16 meta.height,
     wInt32 0x480000, wInt32 0x480000, wInt32 0, wInt16 1,
     .put (List.replicate 32 0x20), wInt16 0x18, wInt16 (-1)] ++
    (match meta.mime with
     | .mpeg4 =>
       [.beginB [0x65, 0x73, 0x64, 0x73],           -- esds
        wInt32 0, wInt8 0x03, wInt8 (23 + (csd.length : Int)), wInt16 0x0000,
        wInt8 0x1f, wInt8 0x04, wInt8 (15 + (csd.length : Int)), wInt8 0x20,
        wInt8 0x11,
        .put [0x01, 0x77, 0x00, 0x00, 0x03, 0xe8, 0x00, 0x00, 0x03, 0xe8, 0x00],
        wInt8 0x05, wInt8 (csd.length : Int), .put csd,
        .put [0x06, 0x01, 0x02], .endB]
     | .h263 =>
       [.beginB [0x64, 0x32, 0x36, 0x33],           -- d263
        wInt32 0, wInt8 0, wInt8 10, wInt8 0, .endB]
     | _ =>
       [.beginB [0x61, 0x76, 0x63, 0x43],           -- avcC
        .put csd, .endB]) ++
    [.endB]) ++
  [.endB]

/-- The `stts` box emission (lines 1259-1267). -/
def sttsCmds (st : TrackState) : List Cmd :=
  [.beginB [0x73, 0x74, 0x74, 0x73],                -- stts
   wInt32 0, wInt32 (st.sttsTableEntries.length : Int)] ++
  (st.sttsTableEntries.flatMap fun e => [wInt32 (e.1 : Int), wInt32 (e.2 : Int)]) ++
  [.endB]

/-- The `stss` box emission (lines 1270-1277), emitted for video only. -/
def stssCmds (st : TrackState) : List Cmd :=
  [.beginB [0x73, 0x74, 0x73, 0x73],                -- stss
   wInt32 0, wInt32 (st.stssTableEntries.length : Int)] ++
  (st.stssTableEntries.map fun v => wInt32 (v : Int)) ++
  [.endB]

/-- The `stsz` box emission (lines 1280-1295).  In the same-size branch the
source reads `mSampleInfos.begin()->size` without an emptiness check; on an
empty list that dereference yields an indeterminate value, modelled by the
explicit `junk` parameter. -/
def stszCmds (junk : Nat) (st : TrackState) : List Cmd :=
  [.beginB [0x73, 0x74, 0x73, 0x7a],                -- stsz
   wInt32 0] ++
  (if st.samplesHaveSameSize then
    [wInt32 ((match st.sampleInfos with
      | [] => junk
      | i :: _ => i.size : Nat) : Int)]
   else [wInt32 0]) ++
  [wInt32 (st.sampleInfos.length : Int)] ++
  (if st.samplesHaveSameSize then []
   else st.sampleInfos.map fun i => wInt32 (i.size : Int)) ++
  [.endB]

/-- The `stsc` box emission (lines 1297-1306). -/
def stscCmds (st : TrackState) : List Cmd :=
  [.beginB [0x73, 0x74, 0x73, 0x63],                -- stsc
   wInt32 0, wInt32 (st.stscTableEntries.length : Int)] ++
  (st.stscTableEntries.flatMap fun e =>
    [wInt32 (e.firstChunk : Int), wInt32 (e.samplesPerChunk : Int),
     wInt32 (e.sampleDescriptionId : Int)]) ++
  [.endB]

/-- The `co64` box emission (lines 1308-1315). -/
def co64Cmds (st : TrackState) : List Cmd :=
  [.beginB [0x63, 0x6f, 0x36, 0x34],                -- co64
   wInt32 0, wInt32 (st.chunkOffsets.length : Int)] ++
  (st.chunkOffsets.map fun v => wInt64 (v : Int)) ++
  [.endB]

/-- The `tkhd` box emission (lines 996-1032). -/
def tkhdCmds (now trackID : Int) (meta : TrackMeta) (st : TrackState) : List Cmd :=
  [.beginB [0x74, 0x6b, 0x68, 0x64],                -- tkhd
   wInt32 0, wInt32 now, wInt32 now, wInt32 trackID, wInt32 0,
   wInt32 (Int.tdiv st.maxTimeStampUs 1000),
   wInt32 0, wInt32 0, wInt16 0, wInt16 0,
   wInt16 (if meta.mime.isAudio then 0x100 else 0), wInt16 0,
   wInt32 0x10000, wInt32 0, wInt32 0, wInt32 0, wInt32 0x10000,
   wInt32 0, wInt32 0, wInt32 0, wInt32 0x40000000] ++
  (if meta.mime.isAudio then [wInt32 0, wInt32 0]
   else [wInt32 (meta.width * 65536), wInt32 (meta.height * 65536)]) ++
  [.endB]

/-- The `edts`/`elst` emission (lines 1034-1045), only for a nonzero track
start timestamp. -/
def edtsCmds (st : TrackState) : List Cmd :=
  if st.startTimestampUs ≠ 0 then
    [.beginB [0x65, 0x64, 0x74, 0x73],              -- edts
     wInt32 0,
     .beginB [0x65, 0x6c, 0x73, 0x74],              -- elst
     wInt32 0, wInt32 1, wInt32 (Int.tdiv st.startTimestampUs 1000),
     wInt32 (-1), wInt32 1, .endB, .endB]
  else []

/-- The `mdhd` box emission (lines 1049-1057). -/
def mdhdCmds (now : Int) (st : TrackState) : List Cmd :=
  [.beginB [0x6d, 0x64, 0x68, 0x64],                -- mdhd
   wInt32 0, wInt32 now, wInt32 now, wInt32 1000,
   wInt32 (Int.tdiv st.maxTimeStampUs 1000), wInt16 0, wInt16 0, .endB]

/-- The `hdlr` box emission (lines 1059-1067). -/
def hdlrCmds (meta : TrackMeta) : List Cmd :=
  [.beginB [0x68, 0x64, 0x6c, 0x72],                -- hdlr
   wInt32 0, wInt32 0,
   .put (if meta.mime.isAudio then [0x73, 0x6f, 0x75, 0x6e]
         else [0x76, 0x69, 0x64, 0x65]),
   wInt32 0, wInt32 0, wInt32 0,
   .put (if meta.mime.isAudio then
     [0x53, 0x6f, 0x75, 0x6e, 0x64, 0x48, 0x61, 0x6e, 0x64, 0x6c, 0x65, 0x72, 0x00]
    else [0x00]),
   .endB]

/-- The `minf` box emission (lines 1069-1096): `smhd` or `vmhd`, then
`dinf`/`dref`/`url `; the source closes `minf` right after `dinf`
(line 1096), so `stbl` is emitted as a sibling of `minf` inside `mdia`. -/
def minfCmds (meta : TrackMeta) : List Cmd :=
  [.beginB [0x6d, 0x69, 0x6e, 0x66]] ++             -- minf
  (if meta.mime.isAudio then
    [.beginB [0x73, 0x6d, 0x68, 0x64],              -- smhd
     wInt32 0, wInt16 0, wInt16 0, .endB]
   else
    [.beginB [0x76, 0x6d, 0x68, 0x64],              -- vmhd
     wInt32 0x00000001, wInt16 0, wInt16 0, wInt16 0, wInt16 0, .endB]) ++
  [.beginB [0x64, 0x69, 0x6e, 0x66],                -- dinf
   .beginB [0x64, 0x72, 0x65, 0x66],                -- dref
   wInt32 0, wInt32 1,
   .beginB [0x75, 0x72, 0x6c, 0x20],                -- url(space)
   wInt32 1, .endB, .endB, .endB,
   .endB]                                           -- minf

/-- The `stbl` subtree emission (lines 1098-1317). -/
def stblCmds (meta : TrackMeta) (csd : List Nat) (junk : Nat)
    (st : TrackState) : List Cmd :=
  [.beginB [0x73, 0x74, 0x62, 0x6c]] ++             -- stbl
  stsdCmds meta csd ++
  sttsCmds st ++
  (if ¬ meta.mime.isAudio then stssCmds st else []) ++
  stszCmds junk st ++
  stscCmds st ++
  co64Cmds st ++
  [.endB]

/-- The `mdia` subtree emission (lines 1047-1318). -/
def mdiaCmds (now : Int) (meta : TrackMeta) (csd : List Nat) (junk : Nat)
    (st : TrackState) : List Cmd :=
  [.beginB [0x6d, 0x64, 0x69, 0x61]] ++             -- mdia
  mdhdCmds now st ++
  hdlrCmds meta ++
  minfCmds meta ++
  stblCmds meta csd junk st ++
  [.endB]

/-- The command sequence of `Track::writeTrackHeader` (lines 985-1320),
assuming the video-path codec-config size check passed. -/
def trakCmds (now trackID : Int) (meta : TrackMeta) (csd : List Nat)
    (junk : Nat) (st : TrackState) : List Cmd :=
  [.beginB [0x74, 0x72, 0x61, 0x6b]] ++             -- trak
  tkhdCmds now trackID meta st ++
  edtsCmds st ++
  mdiaCmds now meta csd junk st ++
  [.endB]

/-- The nesting-depth effect of a command sequence: starting from `d` open
boxes, the number of open boxes afterwards, or `none` if some `endB` has no
matching open box. -/
def nestDepth : List Cmd → Nat → Option Nat
  | [], d => some d
  | .beginB _ :: cs, d => nestDepth cs (d + 1)
  | .endB :: cs, d =>
    match d with
    | 0 => none
    | d' + 1 => nestDepth cs d'
  | .put _ :: cs, d => nestDepth cs d

/-- Embedding of `Track::writeTrackHeader` as a command generator: `none`
when the video-path `CHECK(23 + mCodecSpecificDataSize < 128)` (line 1203)
would abort, otherwise the emitted command sequence. -/
def writeTrackHeaderCmds (now trackID : Int) (meta : TrackMeta)
    (csd : List Nat) (junk : Nat) (st : TrackState) : Option (List Cmd) :=
  if ¬ meta.mime.isAudio ∧ ¬ (23 + csd.length < 128) then none
  else some (trakCmds now trackID meta csd junk st)

/-- The `mvhd` box of `stop()` (lines 234-261). -/
def mvhdCmds (now : Int) (maxDurationUs : Int) (nTracks : Nat) : List Cmd :=
  [.beginB [0x6d, 0x76, 0x68, 0x64],                -- mvhd
   wInt32 0, wInt32 now, wInt32 now, wInt32 1000,
   wInt32 (Int.tdiv maxDurationUs 1000),
   wInt32 0x10000, wInt16 0x100, wInt16 0, wInt32 0, wInt32 0,
   wInt32 0x10000, wInt32 0, wInt32 0, wInt32 0, wInt32 0x10000,
   wInt32 0, wInt32 0, wInt32 0, wInt32 0x40000000,
   wInt32 0, wInt32 0, wInt32 0, wInt32 0, wInt32 0, wInt32 0,
   wInt32 ((nTracks : Int) + 1), .endB]

/-- Everything `stop()` needs from one track after joining its producer:
format metadata, captured codec-specific data, the indeterminate
empty-`stsz` read, and the joined producer's final state. -/
structure TrackRec where
  meta : TrackMeta
  csd : List Nat
  junk : Nat
  st : TrackState

/-- The concatenated `trak` subtrees with 1-based IDs in insertion order
(lines 263-267); `none` if any track header would abort. -/
def trackHeadersCmds (now : Int) : Int → List TrackRec → Option (List Cmd)
  | _, [] => some []
  | id, t :: ts =>
    match writeTrackHeaderCmds now id t.meta t.csd t.junk t.st,
          trackHeadersCmds now (id + 1) ts with
    | some c, some cs => some (c ++ cs)
    | _, _ => none

/-- The full `moov` emission command sequence of `stop()` (lines 232-268). -/
def moovCmds (now : Int) (maxDurationUs : Int) (tracks : List TrackRec) :
    Option (List Cmd) :=
  (trackHeadersCmds now 1 tracks).map fun tc =>
    .beginB [0x6d, 0x6f, 0x6f, 0x76] ::             -- moov
      (mvhdCmds now maxDurationUs tracks.length ++ tc ++ [.endB])

/-- The writer object as `stop()` sees it: the emission state, whether
`mFile` is still non-NULL, the recorded `mMdatOffset` and `mFreeBoxOffset`,
the tracks (already joined), and the wall-clock time `time(NULL)` returns. -/
structure Writer where
  ws : WState
  fileOpen : Bool
  mdatOffset : Nat
  freeBoxOffset : Nat
  tracks : List TrackRec
  now : Int

/-- Embedding of `MPEG4Writer::stop` (lines 201-296).  Returns immediately
when the file is already closed (`mFile == NULL`).  Otherwise: compute the
maximum track duration, patch the 64-bit `mdat` length at `mdatOffset + 8`
(a raw `fwrite` that leaves `offset` unchanged, followed by an `fseeko` back
to `offset`), stage the `moov` subtree through the in-memory buffer, and on
the streamable path copy the buffer into the reserved `free` region and emit
the trailing `free` box.  `none` models an aborted `CHECK`
(`mMoovBoxBufferOffset + 8 <= mEstimatedMoovBoxSize` on the streamable path,
`mBoxes.empty()` at the end, or an aborting track header). -/
def stop (w : Writer) : Option Writer :=
  if w.fileOpen = false then some w
  else
    let maxDuration := w.tracks.foldl
      (fun m t => if t.st.maxTimeStampUs > m then t.st.maxTimeStampUs else m) 0
    let s0 := w.ws
    let s1 := { s0 with
      file := writeAt s0.file (w.mdatOffset + 8)
        (be64i ((s0.offset : Int) - (w.mdatOffset : Int))),
      filePos := s0.offset }
    let s2 := { s1 with writeMoovBoxToMemory := true, moovBoxBufferOffset := 0 }
    match moovCmds w.now maxDuration w.tracks with
    | none => none
    | some cmds =>
      let s3 := runCmds cmds s2
      let s4 := { s3 with writeMoovBoxToMemory := false }
      if s3.streamableFile then
        if s3.moovBoxBufferOffset + 8 ≤ s3.estimatedMoovBoxSize then
          let s5 := { s4 with filePos := w.freeBoxOffset, offset := w.freeBoxOffset }
          let s6 := write (bufBytes s4) s5
          let fb := s6.offset
          let s7 := { s6 with filePos := fb }
          let s8 := write
            (be32i ((s7.estimatedMoovBoxSize : Int) - (s7.moovBoxBufferOffset : Int))) s7
          let s9 := write [0x66, 0x72, 0x65, 0x65] s8   -- "free"
          let s10 := { s9 with moovBoxBufferOffset := 0 }
          if s10.boxes = [] then
            some { w with ws := s10, freeBoxOffset := fb, fileOpen := false }
          else none
        else none
      else
        if s4.boxes = [] then some { w with ws := s4, fileOpen := false }
        else none

/-- Running `stts` bookkeeping invariant of the producer loop: the closed
entries plus the open run counter account for all but the last of the
accepted samples (with the open counter starting at 1). -/
def sttsInvariant (st : TrackState) : Prop :=
  sttsCountSum st.sttsTableEntries + st.sampleCount =
    if 2 ≤ st.sampleInfos.length then st.sampleInfos.length - 1 else 1

/-- Running chunk bookkeeping invariant of the producer loop: the `stsc` runs
account for all flushed samples, one `co64` offset was recorded per chunk,
entries exist iff chunks do, entry first-chunk numbers are bounded by the
chunk counter, and with zero interleave duration no sample stays pending. -/
def stscInvariant (interleaveDurationUs : Nat) (st : TrackState) : Prop :=
  stscSum st.stscTableEntries st.nChunks + st.chunkSamples.length
      = st.sampleInfos.length
  ∧ st.chunkOffsets.length = st.nChunks
  ∧ (st.stscTableEntries = [] → st.nChunks = 0)
  ∧ (∀ e ∈ st.stscTableEntries, e.firstChunk ≤ st.nChunks)
  ∧ (interleaveDurationUs = 0 → st.chunkSamples = [])

/-- A fresh file-mode writer state (right after `start()` finished the
`ftyp`/`free`/`mdat` prelude), used as a concrete witness input. -/
def fileState0 : WState :=
  { file := fun _ => 0
    filePos := 0x0F18
    offset := 0x0F18
    writeMoovBoxToMemory := false
    moovBoxBuffer := fun _ => 0
    moovBoxBufferOffset := 0
    estimatedMoovBoxSize := 0x0F00
    boxes := []
    streamableFile := true }

/-- A concrete file-mode state with one open box, used as a witness input. -/
def fileState1 : WState :=
  { fileState0 with boxes := [0x0F18], offset := 0x0F30, filePos := 0x0F30 }

/-- A concrete writer about to be stopped (no tracks), used as a witness
input for the `stop()` idempotence claim. -/
def writer0 : Writer :=
  { ws := { fileState0 with offset := 0x0F28, filePos := 0x0F28 }
    fileOpen := true
    mdatOffset := 0x0F18
    freeBoxOffset := 0x18
    tracks := []
    now := 99 }

/-! ## Helper lemmas -/

theorem sttsCountSum_append (a b : List (Nat × Nat)) :
    sttsCountSum (a ++ b) = sttsCountSum a + sttsCountSum b := by
  simp [sttsCountSum]

theorem applyStartCalls_of_ne_zero :
    ∀ (calls : List Int) (stored : Int), stored ≠ 0 →
      applyStartCalls stored calls = stored := by
  intro calls
  induction calls with
  | nil => intro stored _; rfl
  | cons c cs ih =>
    intro stored h
    have hstep : setStartTimestamp stored c = stored := by
      simp [setStartTimestamp, h]
    simp only [applyStartCalls, List.foldl_cons] at *
    rw [hstep]
    exact ih stored h

/-! ## C4: start-timestamp election -/

/-- C4 counterexample: for the call sequence `[0, 5]` the first call stores
its argument `0`, yet the second call changes the stored value to `5`, so a
later call does not leave the writer's `start_timestamp_us` unchanged. -/
theorem C4_counterexample :
    applyStartCalls 0 [0] = 0 ∧
    applyStartCalls 0 [0, 5] = 5 ∧
    applyStartCalls 0 [0, 5] ≠ applyStartCalls 0 [0] := by
  refine ⟨rfl, rfl, ?_⟩
  decide

/-- C4 amended: the election is first-nonzero-writer-wins.  Starting from the
initial stored value 0, after any sequence of `set_start_timestamp` calls the
stored value equals the first nonzero argument of the sequence (0 if there is
none); in particular calls made while the stored value is nonzero leave it
unchanged. -/
theorem C4_first_nonzero_wins (calls : List Int) :
    applyStartCalls 0 calls = (calls.find? (fun v => v != 0)).getD 0 := by
  induction calls with
  | nil => rfl
  | cons c cs ih =>
    by_cases h : c = 0
    · subst h
      simpa [applyStartCalls, setStartTimestamp, List.find?] using ih
    · simp only [applyStartCalls, List.foldl_cons, List.find?]
      have hc : (c != 0) = true := by simpa using h
      rw [hc]
      have hstep : setStartTimestamp 0 c = c := by simp [setStartTimestamp]
      rw [hstep]
      simpa using applyStartCalls_of_ne_zero cs c h

/-! ## Sample-processing frame lemmas -/

@[simp] theorem accountSize_fields (n : Nat) (st : TrackState) :
    (accountSize n st).sampleInfos = st.sampleInfos ∧
    (accountSize n st).sttsTableEntries = st.sttsTableEntries ∧
    (accountSize n st).sampleCount = st.sampleCount ∧
    (accountSize n st).stscTableEntries = st.stscTableEntries ∧
    (accountSize n st).nChunks = st.nChunks ∧
    (accountSize n st).chunkSamples = st.chunkSamples ∧
    (accountSize n st).chunkOffsets = st.chunkOffsets ∧
    (accountSize n st).lastDuration = st.lastDuration ∧
    (accountSize n st).lastTimestamp = st.lastTimestamp ∧
    (accountSize n st).events = st.events :=
  ⟨rfl, rfl, rfl, rfl, rfl, rfl, rfl, rfl, rfl, rfl⟩

@[simp] theorem electStartTimestamp_fields (t : Int) (st : TrackState) :
    (electStartTimestamp t st).sampleInfos = st.sampleInfos ∧
    (electStartTimestamp t st).sttsTableEntries = st.sttsTableEntries ∧
    (electStartTimestamp t st).sampleCount = st.sampleCount ∧
    (electStartTimestamp t st).stscTableEntries = st.stscTableEntries ∧
    (electStartTimestamp t st).nChunks = st.nChunks ∧
    (electStartTimestamp t st).chunkSamples = st.chunkSamples ∧
    (electStartTimestamp t st).chunkOffsets = st.chunkOffsets ∧
    (electStartTimestamp t st).lastDuration = st.lastDuration ∧
    (electStartTimestamp t st).lastTimestamp = st.lastTimestamp ∧
    (electStartTimestamp t st).events = st.events := by
  unfold electStartTimestamp
  split_ifs <;> exact ⟨rfl, rfl, rfl, rfl, rfl, rfl, rfl, rfl, rfl, rfl⟩

@[simp] theorem updateMaxTimestamp_fields (t : Int) (st : TrackState) :
    (updateMaxTimestamp t st).sampleInfos = st.sampleInfos ∧
    (updateMaxTimestamp t st).sttsTableEntries = st.sttsTableEntries ∧
    (updateMaxTimestamp t st).sampleCount = st.sampleCount ∧
    (updateMaxTimestamp t st).stscTableEntries = st.stscTableEntries ∧
    (updateMaxTimestamp t st).nChunks = st.nChunks ∧
    (updateMaxTimestamp t st).chunkSamples = st.chunkSamples ∧
    (updateMaxTimestamp t st).chunkOffsets = st.chunkOffsets ∧
    (updateMaxTimestamp t st).lastDuration = st.lastDuration ∧
    (updateMaxTimestamp t st).lastTimestamp = st.lastTimestamp ∧
    (updateMaxTimestamp t st).events = st.events := by
  unfold updateMaxTimestamp
  split_ifs <;> exact ⟨rfl, rfl, rfl, rfl, rfl, rfl, rfl, rfl, rfl, rfl⟩

@[simp] theorem appendSampleInfo_fields (info : SampleInfo) (st : TrackState) :
    (appendSampleInfo info st).sampleInfos = st.sampleInfos ++ [info] ∧
    (appendSampleInfo info st).sttsTableEntries = st.sttsTableEntries ∧
    (appendSampleInfo info st).sampleCount = st.sampleCount ∧
    (appendSampleInfo info st).stscTableEntries = st.stscTableEntries ∧
    (appendSampleInfo info st).nChunks = st.nChunks ∧
    (appendSampleInfo info st).chunkSamples = st.chunkSamples ∧
    (appendSampleInfo info st).chunkOffsets = st.chunkOffsets ∧
    (appendSampleInfo info st).lastDuration = st.lastDuration ∧
    (appendSampleInfo info st).lastTimestamp = st.lastTimestamp ∧
    (appendSampleInfo info st).events = st.events :=
  ⟨rfl, rfl, rfl, rfl, rfl, rfl, rfl, rfl, rfl, rfl⟩

@[simp] theorem updateStts_fields (t : Int) (st : TrackState) :
    (updateStts t st).sampleInfos = st.sampleInfos ∧
    (updateStts t st).stscTableEntries = st.stscTableEntries ∧
    (updateStts t st).nChunks = st.nChunks ∧
    (updateStts t st).chunkSamples = st.chunkSamples ∧
    (updateStts t st).chunkOffsets = st.chunkOffsets ∧
    (updateStts t st).lastDuration = st.lastDuration ∧
    (updateStts t st).lastTimestamp = st.lastTimestamp ∧
    (updateStts t st).events = st.events := by
  unfold updateStts
  split_ifs <;> exact ⟨rfl, rfl, rfl, rfl, rfl, rfl, rfl, rfl⟩

theorem updateStts_sum (t : Int) (st : TrackState) :
    sttsCountSum (updateStts t st).sttsTableEntries + (updateStts t st).sampleCount
      = sttsCountSum st.sttsTableEntries + st.sampleCount +
          (if st.sampleInfos.length > 2 then 1 else 0) := by
  unfold updateStts
  split_ifs <;> (simp [sttsCountSum_append, sttsCountSum]; try omega)

@[simp] theorem updateSameSize_fields (n : Nat) (st : TrackState) :
    (updateSameSize n st).sampleInfos = st.sampleInfos ∧
    (updateSameSize n st).sttsTableEntries = st.sttsTableEntries ∧
    (updateSameSize n st).sampleCount = st.sampleCount ∧
    (updateSameSize n st).stscTableEntries = st.stscTableEntries ∧
    (updateSameSize n st).nChunks = st.nChunks ∧
    (updateSameSize n st).chunkSamples = st.chunkSamples ∧
    (updateSameSize n st).chunkOffsets = st.chunkOffsets ∧
    (updateSameSize n st).lastDuration = st.lastDuration ∧
    (updateSameSize n st).lastTimestamp = st.lastTimestamp ∧
    (updateSameSize n st).events = st.events := by
  unfold updateSameSize
  split_ifs <;> exact ⟨rfl, rfl, rfl, rfl, rfl, rfl, rfl, rfl, rfl, rfl⟩

@[simp] theorem updateLastTimes_fields (t : Int) (st : TrackState) :
    (updateLastTimes t st).sampleInfos = st.sampleInfos ∧
    (updateLastTimes t st).sttsTableEntries = st.sttsTableEntries ∧
    (updateLastTimes t st).sampleCount = st.sampleCount ∧
    (updateLastTimes t st).stscTableEntries = st.stscTableEntries ∧
    (updateLastTimes t st).nChunks = st.nChunks ∧
    (updateLastTimes t st).chunkSamples = st.chunkSamples ∧
    (updateLastTimes t st).chunkOffsets = st.chunkOffsets ∧
    (updateLastTimes t st).events = st.events :=
  ⟨rfl, rfl, rfl, rfl, rfl, rfl, rfl, rfl⟩

@[simp] theorem appendStss_fields (b : Bool) (st : TrackState) :
    (appendStss b st).sampleInfos = st.sampleInfos ∧
    (appendStss b st).sttsTableEntries = st.sttsTableEntries ∧
    (appendStss b st).sampleCount = st.sampleCount ∧
    (appendStss b st).stscTableEntries = st.stscTableEntries ∧
    (appendStss b st).nChunks = st.nChunks ∧
    (appendStss b st).chunkSamples = st.chunkSamples ∧
    (appendStss b st).chunkOffsets = st.chunkOffsets ∧
    (appendStss b st).events = st.events := by
  unfold appendStss
  split_ifs <;> exact ⟨rfl, rfl, rfl, rfl, rfl, rfl, rfl, rfl⟩

@[simp] theorem appendChunkSample_fields (n : Nat) (st : TrackState) :
    (appendChunkSample n st).sampleInfos = st.sampleInfos ∧
    (appendChunkSample n st).sttsTableEntries = st.sttsTableEntries ∧
    (appendChunkSample n st).sampleCount = st.sampleCount ∧
    (appendChunkSample n st).stscTableEntries = st.stscTableEntries ∧
    (appendChunkSample n st).nChunks = st.nChunks ∧
    (appendChunkSample n st).chunkSamples = st.chunkSamples ++ [n] ∧
    (appendChunkSample n st).chunkOffsets = st.chunkOffsets ∧
    (appendChunkSample n st).events = st.events :=
  ⟨rfl, rfl, rfl, rfl, rfl, rfl, rfl, rfl⟩

@[simp] theorem writeOneChunk_fields (isAvc : Bool) (st : TrackState) :
    (writeOneChunk isAvc st).sampleInfos = st.sampleInfos ∧
    (writeOneChunk isAvc st).sttsTableEntries = st.sttsTableEntries ∧
    (writeOneChunk isAvc st).sampleCount = st.sampleCount ∧
    (writeOneChunk isAvc st).stscTableEntries = st.stscTableEntries ∧
    (writeOneChunk isAvc st).nChunks = st.nChunks ∧
    (writeOneChunk isAvc st).chunkSamples = [] ∧
    (writeOneChunk isAvc st).lastDuration = st.lastDuration ∧
    (writeOneChunk isAvc st).events = st.events := by
  rcases h : st.chunkSamples with _ | ⟨a, l⟩ <;> simp [writeOneChunk, h]

theorem writeOneChunk_chunkOffsets (isAvc : Bool) (st : TrackState) :
    (writeOneChunk isAvc st).chunkOffsets.length
      = st.chunkOffsets.length + (if st.chunkSamples = [] then 0 else 1) := by
  rcases h : st.chunkSamples with _ | ⟨a, l⟩ <;> simp [writeOneChunk, h]

@[simp] theorem recordStscEntryIfNeeded_fields (st : TrackState) :
    (recordStscEntryIfNeeded st).sampleInfos = st.sampleInfos ∧
    (recordStscEntryIfNeeded st).sttsTableEntries = st.sttsTableEntries ∧
    (recordStscEntryIfNeeded st).sampleCount = st.sampleCount ∧
    (recordStscEntryIfNeeded st).nChunks = st.nChunks ∧
    (recordStscEntryIfNeeded st).chunkSamples = st.chunkSamples ∧
    (recordStscEntryIfNeeded st).chunkOffsets = st.chunkOffsets ∧
    (recordStscEntryIfNeeded st).events = st.events := by
  unfold recordStscEntryIfNeeded
  split_ifs <;> exact ⟨rfl, rfl, rfl, rfl, rfl, rfl, rfl⟩

theorem enqueueChunkSample_frame (isAvc : Bool) (il : Nat) (st : TrackState)
    (smp : Sample) :
    (enqueueChunkSample isAvc il st smp).sampleInfos = st.sampleInfos ∧
    (enqueueChunkSample isAvc il st smp).sttsTableEntries = st.sttsTableEntries ∧
    (enqueueChunkSample isAvc il st smp).sampleCount = st.sampleCount ∧
    (enqueueChunkSample isAvc il st smp).events = st.events := by
  unfold enqueueChunkSample flushSingleSampleChunk interleavedMaybeFlush
  split_ifs <;> simp

/-- Joint characterisation of the fields of `noteSample` needed below:
the appended `SampleInfo`, the `stts` accounting step, and the frame on the
chunk bookkeeping and events. -/
theorem noteSample_char (isAvc : Bool) (st : TrackState) (smp : Sample) :
    (noteSample isAvc st smp).sampleInfos = st.sampleInfos ++ [infoOf isAvc smp] ∧
    sttsCountSum (noteSample isAvc st smp).sttsTableEntries +
        (noteSample isAvc st smp).sampleCount =
      sttsCountSum st.sttsTableEntries + st.sampleCount +
        (if st.sampleInfos.length + 1 > 2 then 1 else 0) ∧
    (noteSample isAvc st smp).chunkSamples = st.chunkSamples ∧
    (noteSample isAvc st smp).chunkOffsets = st.chunkOffsets ∧
    (noteSample isAvc st smp).stscTableEntries = st.stscTableEntries ∧
    (noteSample isAvc st smp).nChunks = st.nChunks ∧
    (noteSample isAvc st smp).events = st.events := by
  unfold noteSample
  refine ⟨by simp, ?_, by simp, by simp, by simp, by simp, by simp⟩
  rw [(appendStss_fields _ _).2.1, (appendStss_fields _ _).2.2.1,
    (updateLastTimes_fields _ _).2.1, (updateLastTimes_fields _ _).2.2.1,
    (updateSameSize_fields _ _).2.1, (updateSameSize_fields _ _).2.2.1,
    updateStts_sum]
  simp

/-! ## C8: millisecond timestamp rounding -/

/-- C8: for every accepted sample with nonnegative microsecond timestamp `t`,
the millisecond timestamp stored in its `SampleInfo` is `(t + 500) / 1000`
under C truncating division, which is `t` rounded to the nearest millisecond
with halves rounding up (the unique `q` with `1000*q ≤ t + 500 < 1000*(q+1)`). -/
theorem C8_timestamp_rounding (isAvc : Bool) (il : Nat) (st : TrackState)
    (smp : Sample) (h : 0 ≤ smp.timestampUs) :
    ((processSample isAvc il st smp).sampleInfos.getLast?.map SampleInfo.timestamp)
      = some (Int.tdiv (smp.timestampUs + 500) 1000)
    ∧ 1000 * Int.tdiv (smp.timestampUs + 500) 1000 ≤ smp.timestampUs + 500
    ∧ smp.timestampUs + 500 < 1000 * (Int.tdiv (smp.timestampUs + 500) 1000 + 1) := by
  have hinfos : (processSample isAvc il st smp).sampleInfos
      = st.sampleInfos ++ [infoOf isAvc smp] := by
    rw [processSample, (enqueueChunkSample_frame isAvc il _ smp).1,
      (noteSample_char isAvc st smp).1]
  refine ⟨?_, ?_, ?_⟩
  · rw [hinfos]
    simp [infoOf]
  · have h5 : 0 ≤ smp.timestampUs + 500 := by omega
    rw [Int.tdiv_eq_ediv h5 (by omega)]
    have := Int.ediv_add_emod (smp.timestampUs + 500) 1000
    have := Int.emod_nonneg (smp.timestampUs + 500) (show (1000:Int) ≠ 0 by omega)
    omega
  · have h5 : 0 ≤ smp.timestampUs + 500 := by omega
    rw [Int.tdiv_eq_ediv h5 (by omega)]
    have := Int.ediv_add_emod (smp.timestampUs + 500) 1000
    have := Int.emod_lt_of_pos (smp.timestampUs + 500) (show (0:Int) < 1000 by omega)
    omega

/-- Witness for C8 at a concrete sample (timestamp 1500 µs, an exact half,
rounds up to 2 ms). -/
theorem C8_witness :
    (((processSample false 500000 (initTrack 0)
        ⟨[1, 2, 3], false, 1500⟩).sampleInfos.getLast?.map SampleInfo.timestamp)
      = some (Int.tdiv (1500 + 500) 1000)
    ∧ 1000 * Int.tdiv (1500 + 500) 1000 ≤ 1500 + 500
    ∧ (1500 : Int) + 500 < 1000 * (Int.tdiv (1500 + 500) 1000 + 1)) :=
  C8_timestamp_rounding false 500000 (initTrack 0) ⟨[1, 2, 3], false, 1500⟩
    (by decide)

/-! ## C2: stts sample-count accounting -/

theorem processSample_char (isAvc : Bool) (il : Nat) (st : TrackState)
    (smp : Sample) :
    (processSample isAvc il st smp).sampleInfos = st.sampleInfos ++ [infoOf isAvc smp] ∧
    sttsCountSum (processSample isAvc il st smp).sttsTableEntries +
        (processSample isAvc il st smp).sampleCount =
      sttsCountSum st.sttsTableEntries + st.sampleCount +
        (if st.sampleInfos.length + 1 > 2 then 1 else 0) ∧
    (processSample isAvc il st smp).events = st.events := by
  obtain ⟨h1, h2, h3, h4⟩ := enqueueChunkSample_frame isAvc il (noteSample isAvc st smp) smp
  obtain ⟨n1, n2, _, _, _, _, n7⟩ := noteSample_char isAvc st smp
  unfold processSample
  refine ⟨?_, ?_, ?_⟩
  · rw [h1, n1]
  · rw [h2, h3]
    exact n2
  · rw [h4, n7]

@[simp] theorem notePremature_fields (st : TrackState) :
    (notePremature st).sampleInfos = st.sampleInfos ∧
    (notePremature st).sttsTableEntries = st.sttsTableEntries ∧
    (notePremature st).sampleCount = st.sampleCount ∧
    (notePremature st).stscTableEntries = st.stscTableEntries ∧
    (notePremature st).nChunks = st.nChunks ∧
    (notePremature st).chunkSamples = st.chunkSamples ∧
    (notePremature st).chunkOffsets = st.chunkOffsets ∧
    (notePremature st).lastDuration = st.lastDuration := by
  unfold notePremature
  split_ifs <;> exact ⟨rfl, rfl, rfl, rfl, rfl, rfl, rfl, rfl⟩

theorem flushLastChunk_frame (isAvc : Bool) (st : TrackState) :
    (flushLastChunk isAvc st).sampleInfos = st.sampleInfos ∧
    (flushLastChunk isAvc st).sttsTableEntries = st.sttsTableEntries ∧
    (flushLastChunk isAvc st).sampleCount = st.sampleCount ∧
    (flushLastChunk isAvc st).lastDuration = st.lastDuration ∧
    (flushLastChunk isAvc st).events = st.events := by
  unfold flushLastChunk
  split_ifs <;> simp

@[simp] theorem closeSttsAdjust_fields (st : TrackState) :
    (closeSttsAdjust st).sampleInfos = st.sampleInfos ∧
    (closeSttsAdjust st).sttsTableEntries = st.sttsTableEntries ∧
    (closeSttsAdjust st).stscTableEntries = st.stscTableEntries ∧
    (closeSttsAdjust st).nChunks = st.nChunks ∧
    (closeSttsAdjust st).chunkSamples = st.chunkSamples ∧
    (closeSttsAdjust st).chunkOffsets = st.chunkOffsets ∧
    (closeSttsAdjust st).events = st.events := by
  unfold closeSttsAdjust
  split_ifs <;> exact ⟨rfl, rfl, rfl, rfl, rfl, rfl, rfl⟩

theorem closeSttsAdjust_sampleCount (st : TrackState) :
    (closeSttsAdjust st).sampleCount
      = st.sampleCount + (if st.sampleInfos.length = 1 then 0 else 1) := by
  unfold closeSttsAdjust
  split_ifs <;> simp

@[simp] theorem appendFinalStts_fields (st : TrackState) :
    (appendFinalStts st).sampleInfos = st.sampleInfos ∧
    (appendFinalStts st).sttsTableEntries
      = st.sttsTableEntries ++ [(st.sampleCount, uint32OfInt st.lastDuration)] ∧
    (appendFinalStts st).stscTableEntries = st.stscTableEntries ∧
    (appendFinalStts st).nChunks = st.nChunks ∧
    (appendFinalStts st).chunkSamples = st.chunkSamples ∧
    (appendFinalStts st).chunkOffsets = st.chunkOffsets ∧
    (appendFinalStts st).events = st.events :=
  ⟨rfl, rfl, rfl, rfl, rfl, rfl, rfl⟩

theorem sttsInvariant_step (isAvc : Bool) (il : Nat) (st : TrackState)
    (smp : Sample) (h : sttsInvariant st) :
    sttsInvariant (processSample isAvc il st smp) := by
  obtain ⟨h1, h2, _⟩ := processSample_char isAvc il st smp
  unfold sttsInvariant at h ⊢
  rw [h1, h2, List.length_append]
  simp only [List.length_singleton]
  split_ifs at h ⊢ <;> omega

theorem sttsInvariant_fold (isAvc : Bool) (il : Nat) :
    ∀ (samples : List Sample) (st : TrackState), sttsInvariant st →
      sttsInvariant (samples.foldl (processSample isAvc il) st) := by
  intro samples
  induction samples with
  | nil => intro st h; exact h
  | cons s rest ih =>
    intro st h
    exact ih _ (sttsInvariant_step isAvc il st s h)

theorem foldl_processSample_length (isAvc : Bool) (il : Nat) :
    ∀ (samples : List Sample) (st : TrackState),
      (samples.foldl (processSample isAvc il) st).sampleInfos.length
        = st.sampleInfos.length + samples.length := by
  intro samples
  induction samples with
  | nil => intro st; rfl
  | cons s rest ih =>
    intro st
    rw [List.foldl_cons, ih, (processSample_char isAvc il st s).1]
    simp
    omega

/-- C2 counterexample: a track whose producer loop finishes having accepted
zero samples gets a closing `stts` entry with `sample_count = 2` (the
initial open-run counter 1, incremented by the not-exactly-one-sample
branch), so the sample-count sum is 2 while `sample_infos` is empty. -/
theorem C2_counterexample :
    sttsCountSum (trackRun false 500000 []).sttsTableEntries = 2 ∧
    (trackRun false 500000 []).sampleInfos.length = 0 ∧
    sttsCountSum (trackRun false 500000 []).sttsTableEntries ≠
      (trackRun false 500000 []).sampleInfos.length := by
  refine ⟨rfl, rfl, ?_⟩
  decide

/-- C2 amended: for every track whose producer loop accepted at least one
sample, the sum of `sample_count` over the `stts` entries equals the number
of `sample_infos` entries.  (For a zero-sample track the code instead writes
a single closing entry with `sample_count = 2`.) -/
theorem C2_stts_sum (isAvc : Bool) (il : Nat) (samples : List Sample)
    (h : samples ≠ []) :
    sttsCountSum (trackRun isAvc il samples).sttsTableEntries
      = (trackRun isAvc il samples).sampleInfos.length := by
  unfold trackRun finishTrack
  set F := samples.foldl (processSample isAvc il) (initTrack 0) with hF
  have hinv : sttsInvariant F := by
    refine sttsInvariant_fold isAvc il samples (initTrack 0) ?_
    unfold sttsInvariant initTrack sttsCountSum
    simp
  have hlen : F.sampleInfos.length = samples.length := by
    rw [hF, foldl_processSample_length]
    simp [initTrack]
  have hlen1 : 1 ≤ samples.length := by
    cases samples with
    | nil => exact absurd rfl h
    | cons a l => simp
  set B := flushLastChunk isAvc (notePremature F) with hB
  have hBinfos : B.sampleInfos = F.sampleInfos := by
    rw [hB, (flushLastChunk_frame isAvc _).1, (notePremature_fields F).1]
  have hBstts : B.sttsTableEntries = F.sttsTableEntries := by
    rw [hB, (flushLastChunk_frame isAvc _).2.1, (notePremature_fields F).2.1]
  have hBsc : B.sampleCount = F.sampleCount := by
    rw [hB, (flushLastChunk_frame isAvc _).2.2.1, (notePremature_fields F).2.2.1]
  set C := closeSttsAdjust B with hC
  have hCinfos : C.sampleInfos = B.sampleInfos := (closeSttsAdjust_fields B).1
  have hCstts : C.sttsTableEntries = B.sttsTableEntries := (closeSttsAdjust_fields B).2.1
  have hCsc : C.sampleCount = B.sampleCount + (if B.sampleInfos.length = 1 then 0 else 1) :=
    closeSttsAdjust_sampleCount B
  show sttsCountSum { appendFinalStts C with reachedEOS := true }.sttsTableEntries
      = { appendFinalStts C with reachedEOS := true }.sampleInfos.length
  have hfin1 : ({ appendFinalStts C with reachedEOS := true } : TrackState).sttsTableEntries
      = C.sttsTableEntries ++ [(C.sampleCount, uint32OfInt C.lastDuration)] :=
    (appendFinalStts_fields C).2.1
  have hfin2 : ({ appendFinalStts C with reachedEOS := true } : TrackState).sampleInfos
      = C.sampleInfos := (appendFinalStts_fields C).1
  rw [hfin1, hfin2, sttsCountSum_append, hCstts, hCinfos, hBstts, hBinfos]
  unfold sttsInvariant at hinv
  have : sttsCountSum [(C.sampleCount, uint32OfInt C.lastDuration)] = C.sampleCount := by
    simp [sttsCountSum]
  rw [this, hCsc, hBsc, hBinfos, hlen]
  split_ifs at hinv ⊢ <;> omega

/-- Witness for the amended C2 at a one-sample track. -/
theorem C2_stts_sum_witness :
    sttsCountSum (trackRun false 500000 [⟨[1, 2, 3], false, 0⟩]).sttsTableEntries
      = (trackRun false 500000 [⟨[1, 2, 3], false, 0⟩]).sampleInfos.length :=
  C2_stts_sum false 500000 [⟨[1, 2, 3], false, 0⟩] (by simp)


/-! ## C5: stsc / co64 chunk accounting -/

@[simp] theorem stscSum_nil (n : Nat) : stscSum [] n = 0 := rfl

@[simp] theorem stscSum_single (e : StscTableEntry) (n : Nat) :
    stscSum [e] n = e.samplesPerChunk * (n + 1 - e.firstChunk) := rfl

@[simp] theorem stscSum_cons_cons (e e2 : StscTableEntry)
    (rest : List StscTableEntry) (n : Nat) :
    stscSum (e :: e2 :: rest) n
      = e.samplesPerChunk * (e2.firstChunk - e.firstChunk) + stscSum (e2 :: rest) n :=
  rfl

theorem stscSum_concat :
    ∀ (es : List StscTableEntry) (m c i : Nat), 1 ≤ m →
      stscSum (es ++ [⟨m, c, i⟩]) m = stscSum es (m - 1) + c := by
  intro es
  induction es with
  | nil =>
    intro m c i hm
    have h1 : m + 1 - m = 1 := by omega
    simp [h1]
  | cons e rest ih =>
    intro m c i hm
    cases rest with
    | nil =>
      have h1 : m + 1 - m = 1 := by omega
      have h2 : m - 1 + 1 = m := by omega
      simp [h1, h2]
    | cons e2 rest' =>
      have hih := ih m c i hm
      simp only [List.cons_append] at hih ⊢
      rw [stscSum_cons_cons, stscSum_cons_cons, hih]
      ring

theorem stscSum_extend :
    ∀ (es : List StscTableEntry) (n : Nat), es ≠ [] →
      (∀ e ∈ es, e.firstChunk ≤ n) →
      stscSum es (n + 1)
        = stscSum es n + ((es.getLast?.getD ⟨0, 0, 0⟩).samplesPerChunk) := by
  intro es
  induction es with
  | nil => intro n h; exact absurd rfl h
  | cons e rest ih =>
    intro n _ hb
    cases rest with
    | nil =>
      have hfc : e.firstChunk ≤ n := hb e (by simp)
      have h1 : n + 1 + 1 - e.firstChunk = (n + 1 - e.firstChunk) + 1 := by omega
      simp [h1]
      ring
    | cons e2 rest' =>
      have hb' : ∀ x ∈ e2 :: rest', x.firstChunk ≤ n := by
        intro x hx
        exact hb x (by simp [hx])
      have hih := ih n (by simp) hb'
      rw [stscSum_cons_cons, stscSum_cons_cons, hih, List.getLast?_cons_cons]
      ring

theorem recordStscEntryIfNeeded_stsc (st : TrackState) :
    (recordStscEntryIfNeeded st).stscTableEntries
      = if st.nChunks + 1 = 1 ∨
            (st.stscTableEntries.getLast?.getD ⟨0, 0, 0⟩).samplesPerChunk ≠
              st.chunkSamples.length
        then st.stscTableEntries ++ [⟨st.nChunks + 1, st.chunkSamples.length, 1⟩]
        else st.stscTableEntries := by
  unfold recordStscEntryIfNeeded
  split_ifs <;> rfl

/-- The common chunk-flush accounting step: flushing the pending samples as
chunk `nChunks + 1` with an `stsc` entry accounting `cnt` samples for it
restores the invariant, provided `cnt` matches the pending-sample count. -/
theorem stscInvariant_flush (isAvc : Bool) (il : Nat) (s : TrackState)
    (es' : List StscTableEntry)
    (hsum' : stscSum es' (s.nChunks + 1)
      = stscSum s.stscTableEntries s.nChunks + s.chunkSamples.length)
    (hne' : es' ≠ [])
    (hbound' : ∀ e ∈ es', e.firstChunk ≤ s.nChunks + 1)
    (hcs : s.chunkSamples ≠ [])
    (hsum : stscSum s.stscTableEntries s.nChunks + s.chunkSamples.length
      = s.sampleInfos.length)
    (hoff : s.chunkOffsets.length = s.nChunks)
    (t : Int) :
    stscInvariant il
      (writeOneChunk isAvc
        { s with
          stscTableEntries := es', nChunks := s.nChunks + 1,
          chunkTimestampUs := t }) := by
  obtain ⟨w1, _, _, w4, w5, w6, _, _⟩ := writeOneChunk_fields isAvc
    { s with stscTableEntries := es', nChunks := s.nChunks + 1, chunkTimestampUs := t }
  have hwoff := writeOneChunk_chunkOffsets isAvc
    { s with stscTableEntries := es', nChunks := s.nChunks + 1, chunkTimestampUs := t }
  refine ⟨?_, ?_, ?_, ?_, ?_⟩
  · rw [w1, w4, w5, w6]
    dsimp only
    rw [hsum']
    simpa using hsum
  · rw [hwoff, w5]
    dsimp only
    rw [if_neg hcs]
    omega
  · rw [w4]
    dsimp only
    intro hx
    exact absurd hx hne'
  · rw [w4, w5]
    dsimp only
    exact hbound'
  · intro _
    exact w6

theorem stscInvariant_step (isAvc : Bool) (il : Nat) (st : TrackState)
    (smp : Sample) (h : stscInvariant il st) :
    stscInvariant il (processSample isAvc il st smp) := by
  obtain ⟨hsum, hoff, hemp, hbound, hz⟩ := h
  obtain ⟨n1, _, n3, n4, n5, n6, _⟩ := noteSample_char isAvc st smp
  unfold processSample enqueueChunkSample
  set st1 := noteSample isAvc st smp with hst1
  set LEN := if isAvc = true then (stripStartcode smp.data).length else smp.data.length
    with hLEN
  set st2 := appendChunkSample LEN st1 with hst2
  obtain ⟨a1, _, _, a4, a5, a6, a7, _⟩ := appendChunkSample_fields LEN st1
  have hcs2 : st2.chunkSamples = st.chunkSamples ++ [LEN] := by rw [← hst2] at a6; rw [a6, n3]
  have hstsc2 : st2.stscTableEntries = st.stscTableEntries := by rw [← hst2] at a4; rw [a4, n5]
  have hn2 : st2.nChunks = st.nChunks := by rw [← hst2] at a5; rw [a5, n6]
  have hoff2 : st2.chunkOffsets = st.chunkOffsets := by rw [← hst2] at a7; rw [a7, n4]
  have hinfos2 : st2.sampleInfos = st.sampleInfos ++ [infoOf isAvc smp] := by
    rw [← hst2] at a1; rw [a1, n1]
  have hsum2 : stscSum st2.stscTableEntries st2.nChunks + st2.chunkSamples.length
      = st2.sampleInfos.length := by
    rw [hcs2, hstsc2, hn2, hinfos2]
    simp only [List.length_append, List.length_singleton]
    omega
  have hoffn2 : st2.chunkOffsets.length = st2.nChunks := by rw [hoff2, hn2, hoff]
  have hcs2ne : st2.chunkSamples ≠ [] := by rw [hcs2]; simp
  split_ifs with hil
  · -- zero interleave duration: flush the single-sample chunk
    have hcs0 : st.chunkSamples = [] := hz hil
    have hflush := stscInvariant_flush isAvc il st2
      (st2.stscTableEntries ++ [⟨st2.nChunks + 1, 1, 1⟩])
      (by
        rw [stscSum_concat st2.stscTableEntries (st2.nChunks + 1) 1 1 (by omega)]
        rw [hcs2, hcs0]
        simp)
      (by simp)
      (by
        intro e he
        rcases List.mem_append.1 he with hold | hnew
        · rw [hstsc2] at hold
          have := hbound e hold
          omega
        · rw [List.mem_singleton] at hnew
          subst hnew
          simp)
      hcs2ne hsum2 hoffn2 st2.chunkTimestampUs
    unfold flushSingleSampleChunk
    convert hflush using 2
  · -- nonzero interleave duration
    unfold interleavedMaybeFlush
    split_ifs with ha hf
    · -- anchor the chunk timestamp, no flush
      refine ⟨by simpa using hsum2, by simpa using hoffn2, ?_, ?_, ?_⟩
      · intro hx
        dsimp only at hx
        rw [hstsc2] at hx
        have := hemp hx
        dsimp only
        omega
      · dsimp only
        rw [hstsc2, hn2]
        exact hbound
      · intro h0
        exact absurd h0 hil
    · -- chunk boundary: flush
      have hE := recordStscEntryIfNeeded_stsc st2
      have hEframe := recordStscEntryIfNeeded_fields st2
      have hsum' : stscSum (recordStscEntryIfNeeded st2).stscTableEntries
          (st2.nChunks + 1)
          = stscSum st2.stscTableEntries st2.nChunks + st2.chunkSamples.length := by
        rw [hE]
        split_ifs with hneed
        · rw [stscSum_concat st2.stscTableEntries (st2.nChunks + 1)
            st2.chunkSamples.length 1 (by omega)]
          simp
        · push_neg at hneed
          obtain ⟨hne1, hne2⟩ := hneed
          have hnz : 1 ≤ st2.nChunks := by omega
          have hesne : st2.stscTableEntries ≠ [] := by
            intro hx
            rw [hstsc2] at hx
            have := hemp hx
            rw [hn2] at hnz
            omega
          have hbound2 : ∀ e ∈ st2.stscTableEntries, e.firstChunk ≤ st2.nChunks := by
            rw [hstsc2, hn2]
            exact hbound
          rw [stscSum_extend st2.stscTableEntries st2.nChunks hesne hbound2, hne2]
      have hflush := stscInvariant_flush isAvc il st2
        (recordStscEntryIfNeeded st2).stscTableEntries
        hsum'
        (by
          rw [hE]
          split_ifs with hneed
          · simp
          · push_neg at hneed
            obtain ⟨hne1, _⟩ := hneed
            intro hx
            rw [hstsc2] at hx
            have := hemp hx
            rw [hn2] at hne1
            omega)
        (by
          rw [hE]
          split_ifs with hneed
          · intro e he
            rcases List.mem_append.1 he with hold | hnew
            · rw [hstsc2] at hold
              have := hbound e hold
              rw [hn2]
              omega
            · rw [List.mem_singleton] at hnew
              subst hnew
              simp
          · intro e he
            rw [hstsc2] at he
            have := hbound e he
            rw [hn2]
            omega)
        hcs2ne hsum2 hoffn2 smp.timestampUs
      have hrec : ({ recordStscEntryIfNeeded st2 with
          nChunks := st2.nChunks + 1, chunkTimestampUs := smp.timestampUs } : TrackState)
          = { st2 with
              stscTableEntries := (recordStscEntryIfNeeded st2).stscTableEntries,
              nChunks := st2.nChunks + 1,
              chunkTimestampUs := smp.timestampUs } := by
        unfold recordStscEntryIfNeeded
        split_ifs <;> rfl
      rw [hrec]
      exact hflush
    · -- within the current chunk, no flush
      exact ⟨hsum2, hoffn2,
        by rw [hstsc2, hn2]; exact hemp,
        by rw [hstsc2, hn2]; exact hbound,
        fun h0 => absurd h0 hil⟩

theorem stscInvariant_fold (isAvc : Bool) (il : Nat) :
    ∀ (samples : List Sample) (st : TrackState), stscInvariant il st →
      stscInvariant il (samples.foldl (processSample isAvc il) st) := by
  intro samples
  induction samples with
  | nil => intro st h; exact h
  | cons s rest ih =>
    intro st h
    exact ih _ (stscInvariant_step isAvc il st s h)

theorem stscInvariant_init (il : Nat) : stscInvariant il (initTrack 0) := by
  unfold stscInvariant initTrack
  simp

theorem stscInvariant_notePremature (il : Nat) (st : TrackState)
    (h : stscInvariant il st) : stscInvariant il (notePremature st) := by
  unfold stscInvariant at h ⊢
  simpa using h

theorem stscInvariant_flushLast (isAvc : Bool) (il : Nat) (st : TrackState)
    (h : stscInvariant il st) :
    stscSum (flushLastChunk isAvc st).stscTableEntries
        (flushLastChunk isAvc st).nChunks
      = (flushLastChunk isAvc st).sampleInfos.length
    ∧ (flushLastChunk isAvc st).chunkOffsets.length
      = (flushLastChunk isAvc st).nChunks := by
  obtain ⟨hsum, hoff, hemp, hbound, _⟩ := h
  unfold flushLastChunk
  split_ifs with hcse
  · have hlen0 : st.chunkSamples.length = 0 := by
      rw [List.isEmpty_iff] at hcse
      simp [hcse]
    exact ⟨by omega, hoff⟩
  · have hcs : st.chunkSamples ≠ [] := by
      intro hx
      rw [← List.isEmpty_iff] at hx
      exact hcse hx
    have hflush := stscInvariant_flush isAvc il st
      (st.stscTableEntries ++ [⟨st.nChunks + 1, st.chunkSamples.length, 1⟩])
      (by
        rw [stscSum_concat st.stscTableEntries (st.nChunks + 1)
          st.chunkSamples.length 1 (by omega)]
        simp)
      (by simp)
      (by
        intro e he
        rcases List.mem_append.1 he with hold | hnew
        · have := hbound e hold
          omega
        · rw [List.mem_singleton] at hnew
          subst hnew
          simp)
      hcs hsum hoff st.chunkTimestampUs
    obtain ⟨f1, f2, _, _, _⟩ := hflush
    constructor
    · simpa using f1
    · simpa using f2

/-- C5: for every track, after its producer loop has finished, the sum over
the `stsc` runs of samples-per-chunk times the number of chunks in that run
equals the number of `sample_infos` entries, and the number of `co64` chunk
offsets equals the total number of chunks flushed. -/
theorem C5_stsc_co64 (isAvc : Bool) (il : Nat) (samples : List Sample) :
    stscSum (trackRun isAvc il samples).stscTableEntries
        (trackRun isAvc il samples).nChunks
      = (trackRun isAvc il samples).sampleInfos.length
    ∧ (trackRun isAvc il samples).chunkOffsets.length
      = (trackRun isAvc il samples).nChunks := by
  unfold trackRun finishTrack
  set F := samples.foldl (processSample isAvc il) (initTrack 0) with hF
  have hinv : stscInvariant il F :=
    stscInvariant_fold isAvc il samples (initTrack 0) (stscInvariant_init il)
  have hinvP : stscInvariant il (notePremature F) :=
    stscInvariant_notePremature il F hinv
  obtain ⟨hs, ho⟩ := stscInvariant_flushLast isAvc il (notePremature F) hinvP
  constructor
  · simpa using hs
  · simpa using ho

/-! ## C3: empty track is non-fatal -/

theorem nestDepth_append :
    ∀ (a b : List Cmd) (d : Nat),
      nestDepth (a ++ b) d = (nestDepth a d).bind (fun e => nestDepth b e) := by
  intro a
  induction a with
  | nil => intro b d; rfl
  | cons c cs ih =>
    intro b d
    cases c with
    | beginB fc => simpa [nestDepth] using ih b (d + 1)
    | endB =>
      cases d with
      | zero => rfl
      | succ d' => simpa [nestDepth] using ih b d'
    | put bs => simpa [nestDepth] using ih b d

theorem balancedFrom_iff_nestDepth :
    ∀ (l : List Cmd) (d : Nat), balancedFrom l d = true ↔ nestDepth l d = some 0 := by
  intro l
  induction l with
  | nil =>
    intro d
    simp [balancedFrom, nestDepth]
  | cons c cs ih =>
    intro d
    cases c with
    | beginB fc => simpa [balancedFrom, nestDepth] using ih (d + 1)
    | endB =>
      cases d with
      | zero => simp [balancedFrom, nestDepth]
      | succ d' => simpa [balancedFrom, nestDepth] using ih d'
    | put bs => simpa [balancedFrom, nestDepth] using ih d

theorem nestDepth_map_single {α : Type} (g : α → Cmd)
    (hg : ∀ x d, nestDepth [g x] d = some d) :
    ∀ (l : List α) (d : Nat), nestDepth (l.map g) d = some d := by
  intro l
  induction l with
  | nil => intro d; rfl
  | cons a rest ih =>
    intro d
    rw [List.map_cons]
    cases hga : g a with
    | beginB fc =>
      exfalso
      have h := hg a d
      rw [hga] at h
      simp only [nestDepth, Option.some.injEq] at h
      omega
    | endB =>
      exfalso
      have h := hg a 0
      rw [hga] at h
      exact Option.noConfusion h
    | put bs =>
      exact ih d

theorem nestDepth_flatMap {α : Type} (f : α → List Cmd)
    (hf : ∀ x d, nestDepth (f x) d = some d) :
    ∀ (l : List α) (d : Nat), nestDepth (l.flatMap f) d = some d := by
  intro l
  induction l with
  | nil => intro d; rfl
  | cons a rest ih =>
    intro d
    rw [List.flatMap_cons, nestDepth_append, hf a d, Option.some_bind]
    exact ih d

theorem nestDepth_tkhdCmds (now trackID : Int) (meta : TrackMeta)
    (st : TrackState) (d : Nat) :
    nestDepth (tkhdCmds now trackID meta st) d = some d := by
  unfold tkhdCmds
  split_ifs <;> rfl

theorem nestDepth_edtsCmds (st : TrackState) (d : Nat) :
    nestDepth (edtsCmds st) d = some d := by
  unfold edtsCmds
  split_ifs <;> rfl

theorem nestDepth_mdhdCmds (now : Int) (st : TrackState) (d : Nat) :
    nestDepth (mdhdCmds now st) d = some d := rfl

theorem nestDepth_hdlrCmds (meta : TrackMeta) (d : Nat) :
    nestDepth (hdlrCmds meta) d = some d := rfl

theorem nestDepth_minfCmds (meta : TrackMeta) (d : Nat) :
    nestDepth (minfCmds meta) d = some d := by
  unfold minfCmds
  split_ifs <;> rfl

theorem nestDepth_stsdCmds (meta : TrackMeta) (csd : List Nat) (d : Nat) :
    nestDepth (stsdCmds meta csd) d = some d := by
  rcases meta with ⟨mime, w, hg, cc, sr⟩
  cases mime <;> rfl

theorem nestDepth_sttsCmds (st : TrackState) (d : Nat) :
    nestDepth (sttsCmds st) d = some d := by
  unfold sttsCmds
  rw [nestDepth_append, nestDepth_append]
  rw [show nestDepth [Cmd.beginB [0x73, 0x74, 0x74, 0x73], wInt32 0,
    wInt32 (st.sttsTableEntries.length : Int)] d = some (d + 1) from rfl,
    Option.some_bind,
    nestDepth_flatMap (fun e => [wInt32 (e.1 : Int), wInt32 (e.2 : Int)])
      (fun x e => rfl) st.sttsTableEntries (d + 1),
    Option.some_bind]
  rfl

theorem nestDepth_stssCmds (st : TrackState) (d : Nat) :
    nestDepth (stssCmds st) d = some d := by
  unfold stssCmds
  rw [nestDepth_append, nestDepth_append]
  rw [show nestDepth [Cmd.beginB [0x73, 0x74, 0x73, 0x73], wInt32 0,
    wInt32 (st.stssTableEntries.length : Int)] d = some (d + 1) from rfl,
    Option.some_bind,
    nestDepth_map_single (fun v => wInt32 (v : Int)) (fun x e => rfl)
      st.stssTableEntries (d + 1),
    Option.some_bind]
  rfl

theorem nestDepth_stszCmds (junk : Nat) (st : TrackState) (d : Nat) :
    nestDepth (stszCmds junk st) d = some d := by
  unfold stszCmds
  rw [nestDepth_append, nestDepth_append, nestDepth_append, nestDepth_append]
  rw [show nestDepth [Cmd.beginB [0x73, 0x74, 0x73, 0x7a], wInt32 0] d
    = some (d + 1) from rfl, Option.some_bind]
  have h1 : nestDepth (if st.samplesHaveSameSize then
      [wInt32 ((match st.sampleInfos with
        | [] => junk
        | i :: _ => i.size : Nat) : Int)]
     else [wInt32 0]) (d + 1) = some (d + 1) := by
    split_ifs <;> rfl
  rw [h1, Option.some_bind,
    show nestDepth [wInt32 (st.sampleInfos.length : Int)] (d + 1)
      = some (d + 1) from rfl, Option.some_bind]
  have h2 : nestDepth (if st.samplesHaveSameSize then []
      else st.sampleInfos.map fun i => wInt32 (i.size : Int)) (d + 1)
      = some (d + 1) := by
    split_ifs with hs
    · rfl
    · exact nestDepth_map_single (fun i => wInt32 (i.size : Int))
        (fun x e => rfl) st.sampleInfos (d + 1)
  rw [h2, Option.some_bind]
  rfl

theorem nestDepth_stscCmds (st : TrackState) (d : Nat) :
    nestDepth (stscCmds st) d = some d := by
  unfold stscCmds
  rw [nestDepth_append, nestDepth_append]
  rw [show nestDepth [Cmd.beginB [0x73, 0x74, 0x73, 0x63], wInt32 0,
    wInt32 (st.stscTableEntries.length : Int)] d = some (d + 1) from rfl,
    Option.some_bind,
    nestDepth_flatMap (fun e => [wInt32 (e.firstChunk : Int),
      wInt32 (e.samplesPerChunk : Int), wInt32 (e.sampleDescriptionId : Int)])
      (fun x e => rfl) st.stscTableEntries (d + 1),
    Option.some_bind]
  rfl

theorem nestDepth_co64Cmds (st : TrackState) (d : Nat) :
    nestDepth (co64Cmds st) d = some d := by
  unfold co64Cmds
  rw [nestDepth_append, nestDepth_append]
  rw [show nestDepth [Cmd.beginB [0x63, 0x6f, 0x36, 0x34], wInt32 0,
    wInt32 (st.chunkOffsets.length : Int)] d = some (d + 1) from rfl,
    Option.some_bind,
    nestDepth_map_single (fun v => wInt64 (v : Int)) (fun x e => rfl)
      st.chunkOffsets (d + 1),
    Option.some_bind]
  rfl

theorem nestDepth_stblCmds (meta : TrackMeta) (csd : List Nat) (junk : Nat)
    (st : TrackState) (d : Nat) :
    nestDepth (stblCmds meta csd junk st) d = some d := by
  unfold stblCmds
  rw [nestDepth_append, nestDepth_append, nestDepth_append, nestDepth_append,
    nestDepth_append, nestDepth_append, nestDepth_append]
  rw [show nestDepth [Cmd.beginB [0x73, 0x74, 0x62, 0x6c]] d = some (d + 1)
    from rfl, Option.some_bind,
    nestDepth_stsdCmds meta csd (d + 1), Option.some_bind,
    nestDepth_sttsCmds st (d + 1), Option.some_bind]
  have h1 : nestDepth (if ¬ meta.mime.isAudio then stssCmds st else []) (d + 1)
      = some (d + 1) := by
    split_ifs with hs <;> first | rfl | exact nestDepth_stssCmds st (d + 1)
  rw [h1, Option.some_bind,
    nestDepth_stszCmds junk st (d + 1), Option.some_bind,
    nestDepth_stscCmds st (d + 1), Option.some_bind,
    nestDepth_co64Cmds st (d + 1), Option.some_bind]
  rfl

theorem nestDepth_mdiaCmds (now : Int) (meta : TrackMeta) (csd : List Nat)
    (junk : Nat) (st : TrackState) (d : Nat) :
    nestDepth (mdiaCmds now meta csd junk st) d = some d := by
  unfold mdiaCmds
  rw [nestDepth_append, nestDepth_append, nestDepth_append, nestDepth_append,
    nestDepth_append]
  rw [show nestDepth [Cmd.beginB [0x6d, 0x64, 0x69, 0x61]] d = some (d + 1)
    from rfl, Option.some_bind,
    nestDepth_mdhdCmds now st (d + 1), Option.some_bind,
    nestDepth_hdlrCmds meta (d + 1), Option.some_bind,
    nestDepth_minfCmds meta (d + 1), Option.some_bind,
    nestDepth_stblCmds meta csd junk st (d + 1), Option.some_bind]
  rfl

theorem nestDepth_trakCmds (now trackID : Int) (meta : TrackMeta)
    (csd : List Nat) (junk : Nat) (st : TrackState) (d : Nat) :
    nestDepth (trakCmds now trackID meta csd junk st) d = some d := by
  unfold trakCmds
  rw [nestDepth_append, nestDepth_append, nestDepth_append, nestDepth_append]
  rw [show nestDepth [Cmd.beginB [0x74, 0x72, 0x61, 0x6b]] d = some (d + 1)
    from rfl, Option.some_bind,
    nestDepth_tkhdCmds now trackID meta st (d + 1), Option.some_bind,
    nestDepth_edtsCmds st (d + 1), Option.some_bind,
    nestDepth_mdiaCmds now meta csd junk st (d + 1), Option.some_bind]
  rfl

theorem trakCmds_balanced (now trackID : Int) (meta : TrackMeta)
    (csd : List Nat) (junk : Nat) (st : TrackState) :
    balancedFrom (trakCmds now trackID meta csd junk st) 0 = true :=
  (balancedFrom_iff_nestDepth _ 0).2 (nestDepth_trakCmds now trackID meta csd junk st 0)

/-- C3: a track whose producer loop finished having accepted no samples
raises `INFO_STOP_PREMATURELY`, and `writeTrackHeader` still succeeds on it,
emitting a fully bracketed (hence complete, empty) `trak` command sequence;
in particular the `stsz` box is emitted as a well-formed 20-byte box whose
default-size field carries the indeterminate value read from
`mSampleInfos.begin()` of the empty list (quantified over every such value
`junk`).  The hypothesis is the video-path codec-config size check the source
`CHECK`s (vacuously satisfied by an empty track's absent codec data). -/
theorem C3_empty_track (isAvc : Bool) (il : Nat) (now trackID : Int)
    (meta : TrackMeta) (csd : List Nat) (junk : Nat)
    (hcsd : 23 + csd.length < 128) :
    Event.stopPrematurely ∈ (trackRun isAvc il []).events
    ∧ (∃ cmds,
        writeTrackHeaderCmds now trackID meta csd junk (trackRun isAvc il [])
          = some cmds
        ∧ balancedFrom cmds 0 = true)
    ∧ stszCmds junk (trackRun isAvc il [])
      = [.beginB [0x73, 0x74, 0x73, 0x7a], wInt32 0, wInt32 (junk : Int),
         wInt32 0, .endB] := by
  refine ⟨?_, ⟨trakCmds now trackID meta csd junk (trackRun isAvc il []), ?_, ?_⟩, rfl⟩
  · rw [show (trackRun isAvc il []).events = [Event.stopPrematurely] from rfl]
    simp
  · unfold writeTrackHeaderCmds
    rw [if_neg]
    intro hx
    exact hx.2 hcsd
  · exact trakCmds_balanced now trackID meta csd junk (trackRun isAvc il [])

/-- Witness for C3 at a concrete empty AAC track. -/
theorem C3_empty_track_witness :
    Event.stopPrematurely ∈ (trackRun false 500000 []).events
    ∧ (∃ cmds,
        writeTrackHeaderCmds 0 1 ⟨Mime.aac, 0, 0, 1, 8000⟩ [] 7
          (trackRun false 500000 []) = some cmds
        ∧ balancedFrom cmds 0 = true)
    ∧ stszCmds 7 (trackRun false 500000 [])
      = [.beginB [0x73, 0x74, 0x73, 0x7a], wInt32 0, wInt32 (7 : Int),
         wInt32 0, .endB] :=
  C3_empty_track false 500000 0 1 ⟨Mime.aac, 0, 0, 1, 8000⟩ [] 7 (by decide)

/-! ## C6 and C7: AVC codec-specific data -/

theorem startCodeAt_le_length {d : List Nat} {p : Nat}
    (h : startCodeAt d p = true) : p + 4 ≤ d.length := by
  unfold startCodeAt at h
  rw [beq_iff_eq] at h
  have h4 : ((d.drop p).take 4).length = 4 := by rw [h]; rfl
  simp only [List.length_take, List.length_drop] at h4
  omega

theorem scanPicParam_ge : ∀ (k : Nat) (d : List Nat) (j : Nat),
    d.length - j ≤ k → j ≤ scanPicParam d j := by
  intro k
  induction k with
  | zero =>
    intro d j hk
    rw [scanPicParam]
    have : ¬ (j + 3 < d.length) := by omega
    rw [if_neg this]
  | succ k ih =>
    intro d j hk
    rw [scanPicParam]
    split_ifs with h1 h2
    · exact le_refl j
    · have := ih d (j + 1) (by omega)
      omega
    · exact le_refl j

theorem scanPicParam_hit : ∀ (k : Nat) (d : List Nat) (j : Nat),
    d.length - j ≤ k → scanPicParam d j + 3 < d.length →
    startCodeAt d (scanPicParam d j) = true := by
  intro k
  induction k with
  | zero =>
    intro d j hk hlt
    rw [scanPicParam] at hlt ⊢
    have : ¬ (j + 3 < d.length) := by omega
    rw [if_neg this] at hlt
    omega
  | succ k ih =>
    intro d j hk hlt
    rw [scanPicParam] at hlt ⊢
    split_ifs with h1 h2
    · exact h2
    · rw [if_pos h1, if_neg h2] at hlt
      exact ih d (j + 1) (by omega) hlt
    · rw [if_neg h1] at hlt
      omega

theorem scanPicParam_le_occurrence : ∀ (k : Nat) (d : List Nat) (j q : Nat),
    q - j ≤ k → j ≤ q → startCodeAt d q = true → scanPicParam d j ≤ q := by
  intro k
  induction k with
  | zero =>
    intro d j q hk hjq hq
    have hjq' : j = q := by omega
    subst hjq'
    rw [scanPicParam]
    have hlen := startCodeAt_le_length hq
    rw [if_pos (by omega), if_pos hq]
  | succ k ih =>
    intro d j q hk hjq hq
    rcases Nat.eq_or_lt_of_le hjq with heq | hlt
    · subst heq
      rw [scanPicParam]
      have hlen := startCodeAt_le_length hq
      rw [if_pos (by omega), if_pos hq]
    · rw [scanPicParam]
      split_ifs with h1 h2
      · exact hjq
      · have := ih d (j + 1) q (by omega) (by omega) hq
        omega
      · exact hjq

theorem scanPicParam_finds : ∀ (k : Nat) (d : List Nat) (j p : Nat),
    p - j ≤ k → j ≤ p → startCodeAt d p = true →
    (∀ q, j ≤ q → q < p → startCodeAt d q = false) →
    scanPicParam d j = p := by
  intro k
  induction k with
  | zero =>
    intro d j p hk hjp hp _
    have hjp' : j = p := by omega
    subst hjp'
    have hlen := startCodeAt_le_length hp
    rw [scanPicParam, if_pos (by omega), if_pos hp]
  | succ k ih =>
    intro d j p hk hjp hp hno
    rcases Nat.eq_or_lt_of_le hjp with heq | hlt
    · subst heq
      have hlen := startCodeAt_le_length hp
      rw [scanPicParam, if_pos (by omega), if_pos hp]
    · have hlen := startCodeAt_le_length hp
      have hj : startCodeAt d j = false := hno j (le_refl j) hlt
      rw [scanPicParam, if_pos (by omega), if_neg (by simp [hj])]
      exact ih d (j + 1) p (by omega) (by omega) hp
        (fun q hq1 hq2 => hno q (by omega) hq2)

/-- C7: `makeAVCCodecSpecificData` returns the malformed-stream error (and
stores nothing, modelled by the `none` result) exactly when codec-specific
data was already captured, the input does not begin with the 4-byte start
code (including inputs shorter than 4 bytes), or no second start code occurs
at any position `q ≥ 4` before the end of the input; otherwise it returns
the assembled record (`OK`). -/
theorem C7_error_iff (haveCsd : Bool) (d : List Nat) :
    makeAVCCodecSpecificData haveCsd d = none ↔
      (haveCsd = true ∨ d.take 4 ≠ [0, 0, 0, 1] ∨
        ∀ q, 4 ≤ q → startCodeAt d q = false) := by
  unfold makeAVCCodecSpecificData
  cases haveCsd with
  | true => simp
  | false =>
    rw [if_neg (by simp)]
    by_cases h0 : d.take 4 = [0, 0, 0, 1]
    · rw [if_neg (not_not_intro h0)]
      by_cases hr : scanPicParam d 4 + 3 ≥ d.length
      · rw [if_pos hr]
        constructor
        · intro _
          refine Or.inr (Or.inr ?_)
          intro q hq
          by_contra hcode
          rw [Bool.not_eq_false] at hcode
          have hle := scanPicParam_le_occurrence (q - 4) d 4 q (by omega) hq hcode
          have hlen := startCodeAt_le_length hcode
          omega
        · intro _
          rfl
      · rw [if_neg hr]
        push_neg at hr
        constructor
        · intro hx
          exact absurd hx (by simp)
        · intro hOr
          rcases hOr with h1 | h2 | h3
          · exact absurd h1 (by simp)
          · exact absurd h0 h2
          · exfalso
            have hhit := scanPicParam_hit d.length d 4 (by omega) hr
            have hge := scanPicParam_ge d.length d 4 (by omega)
            have := h3 (scanPicParam d 4) hge
            rw [this] at hhit
            exact Bool.false_ne_true hhit
    · rw [if_pos (by simpa using h0)]
      constructor
      · intro _
        exact Or.inr (Or.inl h0)
      · intro _
        rfl

/-- C6: on an input that begins with the start code and contains exactly one
further start code, at position `p`, `makeAVCCodecSpecificData` stores
exactly the record `01 42 80 1E FF E1, SPS length (big-endian 16-bit,
`p − 4`), the SPS bytes (input bytes 4..p−1), 01, PPS length (big-endian
16-bit, `size − p − 4`), the PPS bytes (input bytes p+4..end)`, of total size
`11 + SPS length + PPS length`.  The 16-bit length bounds make the
"16-bit big-endian length" of the claim well defined. -/
theorem C6_avcc_record (d : List Nat) (p : Nat)
    (h0 : d.take 4 = [0, 0, 0, 1])
    (hp : startCodeAt d p = true)
    (hpne : p ≠ 0)
    (huniq : ∀ q, q ≠ 0 → startCodeAt d q = true → q = p)
    (hsps : p - 4 < 65536)
    (hpps : d.length - p - 4 < 65536) :
    makeAVCCodecSpecificData false d
      = some ([1, 0x42, 0x80, 0x1e, 0xff, 0xe1,
               (p - 4) / 256, (p - 4) % 256]
              ++ (d.drop 4).take (p - 4)
              ++ [1, (d.length - p - 4) / 256, (d.length - p - 4) % 256]
              ++ d.drop (p + 4))
    ∧ ([1, 0x42, 0x80, 0x1e, 0xff, 0xe1, (p - 4) / 256, (p - 4) % 256]
              ++ (d.drop 4).take (p - 4)
              ++ [1, (d.length - p - 4) / 256, (d.length - p - 4) % 256]
              ++ d.drop (p + 4)).length
        = 11 + (p - 4) + (d.length - p - 4) := by
  have hlen := startCodeAt_le_length hp
  have hp4 : 4 ≤ p := by
    by_contra hlt
    push_neg at hlt
    rcases d with _ | ⟨a, d1⟩
    · simp at h0
    rcases d1 with _ | ⟨b, d2⟩
    · simp at h0
    rcases d2 with _ | ⟨c, d3⟩
    · simp at h0
    rcases d3 with _ | ⟨e, rest⟩
    · simp at h0
    simp only [List.take, List.cons.injEq, and_true] at h0
    obtain ⟨ha, hb, hc, he⟩ := h0
    subst ha; subst hb; subst hc; subst he
    unfold startCodeAt at hp
    rw [beq_iff_eq] at hp
    interval_cases p
    · exact hpne rfl
    · rcases rest with _ | ⟨x, _ | ⟨y, r⟩⟩ <;> simp at hp
    · rcases rest with _ | ⟨x, _ | ⟨y, r⟩⟩ <;> simp at hp
    · rcases rest with _ | ⟨x, _ | ⟨y, r⟩⟩ <;> simp at hp
  have hscan : scanPicParam d 4 = p := by
    refine scanPicParam_finds p d 4 p (by omega) hp4 hp ?_
    intro q hq1 hq2
    by_contra hcode
    rw [Bool.not_eq_false] at hcode
    have := huniq q (by omega) hcode
    omega
  have hsp1 : (p - 4) / 256 % 256 = (p - 4) / 256 :=
    Nat.mod_eq_of_lt (by omega)
  have hsp2 : (p - 4) % 256 % 256 = (p - 4) % 256 :=
    Nat.mod_eq_of_lt (Nat.lt_of_lt_of_le (Nat.mod_lt _ (by omega)) (by omega))
  have hpp1 : (d.length - p - 4) / 256 % 256 = (d.length - p - 4) / 256 :=
    Nat.mod_eq_of_lt (by omega)
  constructor
  · unfold makeAVCCodecSpecificData
    rw [if_neg (by simp), if_neg (by simp [h0]), hscan,
      if_neg (by push_neg; omega)]
    dsimp only
    rw [hsp1, hpp1]
    norm_num
    exact ⟨rfl, rfl⟩
  · have htk : ((d.drop 4).take (p - 4)).length = p - 4 := by
      simp only [List.length_take, List.length_drop]
      omega
    simp only [List.length_append, htk, List.length_cons, List.length_nil,
      List.length_drop]
    omega

/-- Witness for C6 on a concrete two-NAL input (SPS `67 42`, PPS `68`,
second start code at position 6). -/
theorem C6_avcc_record_witness :
    makeAVCCodecSpecificData false [0, 0, 0, 1, 0x67, 0x42, 0, 0, 0, 1, 0x68]
      = some ([1, 0x42, 0x80, 0x1e, 0xff, 0xe1, (6 - 4) / 256, (6 - 4) % 256]
              ++ (([0, 0, 0, 1, 0x67, 0x42, 0, 0, 0, 1, 0x68] : List Nat).drop 4).take (6 - 4)
              ++ [1, (11 - 6 - 4) / 256, (11 - 6 - 4) % 256]
              ++ ([0, 0, 0, 1, 0x67, 0x42, 0, 0, 0, 1, 0x68] : List Nat).drop (6 + 4))
    ∧ ([1, 0x42, 0x80, 0x1e, 0xff, 0xe1, (6 - 4) / 256, (6 - 4) % 256]
              ++ (([0, 0, 0, 1, 0x67, 0x42, 0, 0, 0, 1, 0x68] : List Nat).drop 4).take (6 - 4)
              ++ [1, (11 - 6 - 4) / 256, (11 - 6 - 4) % 256]
              ++ ([0, 0, 0, 1, 0x67, 0x42, 0, 0, 0, 1, 0x68] : List Nat).drop (6 + 4)).length
        = 11 + (6 - 4) + (11 - 6 - 4) := by
  have h := C6_avcc_record [0, 0, 0, 1, 0x67, 0x42, 0, 0, 0, 1, 0x68] 6
    (by decide) (by decide) (by decide)
    (by
      intro q hq hcode
      have hle := startCodeAt_le_length hcode
      simp only [List.length_cons, List.length_nil] at hle
      have h7 : q ≤ 7 := by omega
      have h1 : 1 ≤ q := by omega
      interval_cases q <;> revert hcode <;> decide)
    (by decide) (by decide)
  simpa using h

/-! ## C1: box length fields -/

theorem emittedBytes_cons (c : Cmd) (cs : List Cmd) :
    emittedBytes (c :: cs) = emitted c + emittedBytes cs := by
  simp [emittedBytes]

theorem write_absState (bs : List Nat) (s : WState) :
    (write bs s).boxes.map (pabs (write bs s)) = s.boxes.map (pabs s)
    ∧ cursor (write bs s) = cursor s + bs.length := by
  unfold write
  split_ifs with h1 h2
  · -- overflow fallback: rebase the stack, flush, leave memory mode
    constructor
    · simp [pabs, h1, List.map_map, Function.comp, Nat.add_comm]
    · simp [cursor, h1]
      omega
  · -- buffered append
    constructor
    · simp [pabs, h1]
    · simp [cursor, h1]
      omega
  · -- plain file write
    constructor
    · simp [pabs, h1]
    · simp [cursor, h1]

theorem beginBox_absState (fc : List Nat) (s : WState) :
    (beginBox fc s).boxes.map (pabs (beginBox fc s))
      = s.boxes.map (pabs s) ++ [cursor s]
    ∧ cursor (beginBox fc s) = cursor s + (4 + fc.length) := by
  unfold beginBox
  set s1 : WState := { s with
    boxes := s.boxes ++
      [if s.writeMoovBoxToMemory = true then s.moovBoxBufferOffset else s.offset] }
    with hs1
  have hpabs1 : pabs s1 = pabs s := rfl
  have hcur1 : cursor s1 = cursor s := rfl
  have hboxes1 : s1.boxes.map (pabs s1) = s.boxes.map (pabs s) ++ [cursor s] := by
    rw [hs1]
    dsimp only
    rw [List.map_append, hpabs1]
    congr 1
    unfold pabs cursor
    split_ifs <;> rfl
  obtain ⟨wa1, wb1⟩ := write_absState (be32i 0) s1
  obtain ⟨wa2, wb2⟩ := write_absState fc (write (be32i 0) s1)
  constructor
  · rw [wa2, wa1, hboxes1]
  · rw [wb2, wb1, hcur1]
    have : (be32i 0).length = 4 := rfl
    omega

theorem endBox_absState (s : WState) :
    (endBox s).boxes.map (pabs (endBox s)) = (s.boxes.map (pabs s)).dropLast
    ∧ cursor (endBox s) = cursor s := by
  unfold endBox
  cases hlast : s.boxes.getLast? with
  | none =>
    have hnil : s.boxes = [] := by
      rwa [List.getLast?_eq_none_iff] at hlast
    simp [hnil]
  | some off =>
    split_ifs with hmem
    · -- memory mode: patch the buffer
      constructor
      · dsimp only
        exact List.map_dropLast (pabs s) s.boxes
      · rfl
    · -- file mode: seek, patch, restore
      have hmem' : s.writeMoovBoxToMemory = false := by simpa using hmem
      have hwrite : write (be32i ((s.offset : Int) - (off : Int)))
          { s with boxes := s.boxes.dropLast, filePos := off }
          = { s with
              boxes := s.boxes.dropLast,
              file := writeAt s.file off (be32i ((s.offset : Int) - (off : Int))),
              filePos := off + 4,
              offset := s.offset + 4 } := by
        unfold write
        rw [if_neg (by simp [hmem'])]
        rfl
      dsimp only
      rw [hwrite]
      dsimp only
      constructor
      · simp only [pabs, hmem', Bool.false_eq_true, if_false]
        simp [List.map_dropLast]
        congr 1
        apply List.map_congr_left
        intro a _
        simp [pabs, hmem']
      · simp only [cursor, hmem', Bool.false_eq_true, if_false]
        omega

theorem runCmds_absState :
    ∀ (cmds : List Cmd) (s : WState),
      ((runCmds cmds s).boxes.map (pabs (runCmds cmds s)),
        cursor (runCmds cmds s))
      = absRun cmds (s.boxes.map (pabs s), cursor s) := by
  intro cmds
  induction cmds with
  | nil => intro s; rfl
  | cons c cs ih =>
    intro s
    rw [show runCmds (c :: cs) s = runCmds cs (stepCmd c s) from rfl,
      show absRun (c :: cs) (s.boxes.map (pabs s), cursor s)
        = absRun cs (absStep c (s.boxes.map (pabs s), cursor s)) from rfl,
      ih (stepCmd c s)]
    congr 1
    cases c with
    | beginB fc =>
      obtain ⟨h1, h2⟩ := beginBox_absState fc s
      unfold stepCmd absStep
      rw [Prod.mk.injEq]
      exact ⟨h1, h2⟩
    | endB =>
      obtain ⟨h1, h2⟩ := endBox_absState s
      unfold stepCmd absStep
      rw [Prod.mk.injEq]
      exact ⟨h1, h2⟩
    | put bs =>
      obtain ⟨h1, h2⟩ := write_absState bs s
      unfold stepCmd absStep
      rw [Prod.mk.injEq]
      exact ⟨h1, h2⟩

theorem absRun_balanced :
    ∀ (cmds : List Cmd) (st0 st1 : List Nat) (c d : Nat),
      balancedFrom cmds d = true → st1.length = d →
      absRun cmds (st0 ++ st1, c) = (st0, c + emittedBytes cmds) := by
  intro cmds
  induction cmds with
  | nil =>
    intro st0 st1 c d hb hl
    simp only [balancedFrom, beq_iff_eq] at hb
    subst hb
    have : st1 = [] := List.length_eq_zero.1 hl
    subst this
    simp [absRun, emittedBytes]
  | cons cmd rest ih =>
    intro st0 st1 c d hb hl
    cases cmd with
    | beginB fc =>
      rw [show absRun (Cmd.beginB fc :: rest) (st0 ++ st1, c)
        = absRun rest (st0 ++ st1 ++ [c], c + (4 + fc.length)) from rfl]
      rw [List.append_assoc]
      rw [ih st0 (st1 ++ [c]) (c + (4 + fc.length)) (d + 1) hb
        (by simp [hl])]
      rw [emittedBytes_cons]
      simp only [emitted]
      rw [Prod.mk.injEq]
      exact ⟨rfl, by omega⟩
    | endB =>
      cases d with
      | zero => exact absurd hb (by simp [balancedFrom])
      | succ d' =>
        have hne : st1 ≠ [] := by
          intro hx
          rw [hx] at hl
          simp at hl
        rw [show absRun (Cmd.endB :: rest) (st0 ++ st1, c)
          = absRun rest ((st0 ++ st1).dropLast, c) from rfl,
          List.dropLast_append_of_ne_nil st0 hne]
        rw [ih st0 st1.dropLast c d' (by simpa [balancedFrom] using hb)
          (by rw [List.length_dropLast, hl]; omega)]
        rw [emittedBytes_cons]
        simp only [emitted]
        rw [Prod.mk.injEq]
        exact ⟨rfl, by omega⟩
    | put bs =>
      rw [show absRun (Cmd.put bs :: rest) (st0 ++ st1, c)
        = absRun rest (st0 ++ st1, c + bs.length) from rfl]
      rw [ih st0 st1 (c + bs.length) d (by simpa [balancedFrom] using hb) hl]
      rw [emittedBytes_cons]
      simp only [emitted]
      rw [Prod.mk.injEq]
      exact ⟨rfl, by omega⟩

theorem read32_writeAt_be32 (f : Nat → Nat) (p v : Nat) :
    read32 (writeAt f p (be32 v)) p = v % 2 ^ 32 := by
  have len4 : (be32 v).length = 4 := rfl
  have e0 : writeAt f p (be32 v) p = byteOf ((be32 v).getD 0 0) := by
    unfold writeAt
    rw [if_pos ⟨le_refl p, by rw [len4]; omega⟩, Nat.sub_self]
  have e1 : writeAt f p (be32 v) (p + 1) = byteOf ((be32 v).getD 1 0) := by
    unfold writeAt
    rw [if_pos ⟨by omega, by rw [len4]; omega⟩, Nat.add_sub_cancel_left]
  have e2 : writeAt f p (be32 v) (p + 2) = byteOf ((be32 v).getD 2 0) := by
    unfold writeAt
    rw [if_pos ⟨by omega, by rw [len4]; omega⟩, Nat.add_sub_cancel_left]
  have e3 : writeAt f p (be32 v) (p + 3) = byteOf ((be32 v).getD 3 0) := by
    unfold writeAt
    rw [if_pos ⟨by omega, by rw [len4]; omega⟩, Nat.add_sub_cancel_left]
  unfold read32
  rw [e0, e1, e2, e3]
  show byteOf (v / 2 ^ 24 % 256) * 2 ^ 24 + byteOf (v / 2 ^ 16 % 256) * 2 ^ 16
    + byteOf (v / 2 ^ 8 % 256) * 2 ^ 8 + byteOf (v % 256) = v % 2 ^ 32
  unfold byteOf
  omega

theorem uint32OfInt_ofNat (n : Nat) : uint32OfInt (n : Int) = n % 2 ^ 32 := by
  unfold uint32OfInt
  have h1 : ((n : Int) % 2 ^ 32) = ((n % 2 ^ 32 : Nat) : Int) := by
    push_cast
    omega
  rw [h1]
  exact Int.toNat_ofNat _

/-- C1: for every box emitted through `beginBox`/`endBox` around a
well-bracketed body — whether the box lives in the in-memory moov buffer, in
the file, or straddles the mid-emission overflow fallback that rebases every
saved stack position by the current file offset — the 4-byte big-endian
value `endBox` patches into the box's length field equals the total number of
bytes of the box, its 8-byte header included.  Nested boxes contribute their
full size through `emittedBytes`, so the patched field equals the byte count
the box occupies in the output. -/
theorem C1_box_length (fc : List Nat) (body : List Cmd) (s : WState)
    (hfc : fc.length = 4)
    (hbal : balancedFrom body 0 = true)
    (hsz : 8 + emittedBytes body < 2 ^ 32) :
    patchedLen (runCmds body (beginBox fc s)) = 8 + emittedBytes body := by
  obtain ⟨hb1, hb2⟩ := beginBox_absState fc s
  rw [hfc] at hb2
  have habs := runCmds_absState body (beginBox fc s)
  rw [hb1, hb2] at habs
  have hbal' := absRun_balanced body (s.boxes.map (pabs s) ++ [cursor s]) []
    (cursor s + (4 + 4)) 0 hbal rfl
  rw [List.append_nil] at hbal'
  rw [hbal'] at habs
  set s1 := runCmds body (beginBox fc s) with hs1
  have hmap : s1.boxes.map (pabs s1) = s.boxes.map (pabs s) ++ [cursor s] :=
    congrArg Prod.fst habs
  have hcur : cursor s1 = cursor s + (4 + 4) + emittedBytes body :=
    congrArg Prod.snd habs
  have hlast : (s1.boxes.map (pabs s1)).getLast? = some (cursor s) := by
    rw [hmap]
    exact List.getLast?_concat _
  rw [List.getLast?_map] at hlast
  obtain ⟨p, hp, hpabs⟩ : ∃ p, s1.boxes.getLast? = some p ∧ pabs s1 p = cursor s := by
    cases hq : s1.boxes.getLast? with
    | none => rw [hq] at hlast; simp at hlast
    | some a =>
      rw [hq] at hlast
      exact ⟨a, rfl, by simpa using hlast⟩
  unfold patchedLen
  rw [hp]
  unfold endBox
  rw [hp]
  cases hmem : s1.writeMoovBoxToMemory with
  | true =>
    dsimp only
    rw [if_pos rfl, if_pos rfl]
    dsimp only
    unfold pabs at hpabs
    rw [hmem, if_pos rfl] at hpabs
    unfold cursor at hcur
    rw [hmem, if_pos rfl] at hcur
    unfold cursor at hpabs
    have hval : (s1.moovBoxBufferOffset : Int) - (p : Int)
        = ((8 + emittedBytes body : Nat) : Int) := by
      push_cast
      omega
    unfold be32i
    rw [hval, uint32OfInt_ofNat,
      Nat.mod_eq_of_lt (Nat.lt_of_lt_of_le hsz (by omega)),
      read32_writeAt_be32]
    exact Nat.mod_eq_of_lt hsz
  | false =>
    dsimp only
    rw [if_neg (by simp), if_neg (by simp)]
    unfold pabs at hpabs
    rw [hmem] at hpabs
    simp only [Bool.false_eq_true, if_false] at hpabs
    unfold cursor at hcur
    rw [hmem] at hcur
    simp only [Bool.false_eq_true, if_false] at hcur
    unfold cursor at hpabs
    have hfile : (write (be32i ((s1.offset : Int) - (p : Int)))
        { file := s1.file, filePos := p, offset := s1.offset,
          writeMoovBoxToMemory := false,
          moovBoxBuffer := s1.moovBoxBuffer,
          moovBoxBufferOffset := s1.moovBoxBufferOffset,
          estimatedMoovBoxSize := s1.estimatedMoovBoxSize,
          boxes := s1.boxes.dropLast,
          streamableFile := s1.streamableFile }).file
        = writeAt s1.file p (be32i ((s1.offset : Int) - (p : Int))) := by
      unfold write
      rw [if_neg (by simp)]
    dsimp only
    rw [hfile]
    have hval : (s1.offset : Int) - (p : Int)
        = ((8 + emittedBytes body : Nat) : Int) := by
      push_cast
      omega
    unfold be32i
    rw [hval, uint32OfInt_ofNat,
      Nat.mod_eq_of_lt (Nat.lt_of_lt_of_le hsz (by omega)),
      read32_writeAt_be32]
    exact Nat.mod_eq_of_lt hsz

/-- Witness for C1: a 10-byte box (8-byte header plus a 2-byte payload)
written in file mode from a concrete state. -/
theorem C1_box_length_witness :
    patchedLen (runCmds [Cmd.put [0xAB, 0xCD]]
      (beginBox [0x66, 0x74, 0x79, 0x70] fileState0)) = 8 + emittedBytes [Cmd.put [0xAB, 0xCD]] :=
  C1_box_length [0x66, 0x74, 0x79, 0x70] [Cmd.put [0xAB, 0xCD]] fileState0
    rfl rfl (by decide)

/-! ## C10: endBox in file mode -/

/-- C10: with `writeMoovBoxToMemory` false and a nonempty box stack, `endBox`
seeks to the saved position, patches the 4-byte big-endian length
`offset − saved` there, subtracts the 4 bytes `writeInt32` added back off the
logical offset and seeks back to it: the logical offset is unchanged, no file
byte outside the 4 patched ones is modified, the buffer and the rest of the
state are untouched, and the stack loses exactly its top entry. -/
theorem C10_endBox_frame (s : WState) (l : List Nat) (p : Nat)
    (hmem : s.writeMoovBoxToMemory = false)
    (hboxes : s.boxes = l ++ [p]) :
    (endBox s).offset = s.offset
    ∧ (endBox s).filePos = s.offset
    ∧ (endBox s).boxes = l
    ∧ (∀ i, i < p ∨ p + 4 ≤ i → (endBox s).file i = s.file i)
    ∧ read32 (endBox s).file p = uint32OfInt ((s.offset : Int) - (p : Int))
    ∧ (endBox s).moovBoxBuffer = s.moovBoxBuffer
    ∧ (endBox s).moovBoxBufferOffset = s.moovBoxBufferOffset
    ∧ (endBox s).writeMoovBoxToMemory = false
    ∧ (endBox s).streamableFile = s.streamableFile
    ∧ (endBox s).estimatedMoovBoxSize = s.estimatedMoovBoxSize := by
  have hlast : s.boxes.getLast? = some p := by
    rw [hboxes]
    exact List.getLast?_concat l
  have hdrop : s.boxes.dropLast = l := by
    rw [hboxes]
    exact List.dropLast_concat
  unfold endBox
  rw [hlast]
  dsimp only
  rw [if_neg (by simp [hmem])]
  have hwrite : write (be32i ((s.offset : Int) - (p : Int)))
      { s with boxes := s.boxes.dropLast, filePos := p }
      = { s with
          boxes := s.boxes.dropLast,
          file := writeAt s.file p (be32i ((s.offset : Int) - (p : Int))),
          filePos := p + 4,
          offset := s.offset + 4 } := by
    unfold write
    rw [if_neg (by simp [hmem])]
    rfl
  rw [hwrite]
  dsimp only
  refine ⟨by omega, by omega, hdrop, ?_, ?_, rfl, rfl, by simp [hmem], rfl, rfl⟩
  · intro i hi
    unfold writeAt
    rw [if_neg]
    rw [show (be32i ((s.offset : Int) - (p : Int))).length = 4 from rfl]
    omega
  · unfold be32i
    rw [read32_writeAt_be32]
    unfold uint32OfInt
    have h1 : 0 ≤ ((s.offset : Int) - (p : Int)) % 2 ^ 32 :=
      Int.emod_nonneg _ (by omega)
    have h2 : ((s.offset : Int) - (p : Int)) % 2 ^ 32 < 2 ^ 32 :=
      Int.emod_lt_of_pos _ (by omega)
    omega

/-- Witness for C10 at a concrete file-mode state with one open box. -/
theorem C10_endBox_frame_witness :
    (endBox fileState1).offset = fileState1.offset
    ∧ (endBox fileState1).filePos = fileState1.offset
    ∧ (endBox fileState1).boxes = []
    ∧ (∀ i, i < 0x0F18 ∨ 0x0F18 + 4 ≤ i →
        (endBox fileState1).file i = fileState1.file i)
    ∧ read32 (endBox fileState1).file 0x0F18
      = uint32OfInt ((fileState1.offset : Int) - ((0x0F18 : Nat) : Int))
    ∧ (endBox fileState1).moovBoxBuffer = fileState1.moovBoxBuffer
    ∧ (endBox fileState1).moovBoxBufferOffset = fileState1.moovBoxBufferOffset
    ∧ (endBox fileState1).writeMoovBoxToMemory = false
    ∧ (endBox fileState1).streamableFile = fileState1.streamableFile
    ∧ (endBox fileState1).estimatedMoovBoxSize = fileState1.estimatedMoovBoxSize :=
  C10_endBox_frame fileState1 [] 0x0F18 rfl rfl

/-! ## C9: stop() idempotence -/

/-- C9: `stop()` is idempotent.  Every path of `stop` that completes
successfully clears `fileOpen` (the model of `mFile = NULL` after `fclose`),
and a call on a writer whose file is already closed returns immediately with
the writer unchanged; hence a second `stop()` after a completed one is a
no-op on both the writer state and the output file. -/
theorem C9_stop_idempotent (w w' : Writer) (h : stop w = some w') :
    stop w' = some w' := by
  have hopen : w'.fileOpen = false := by
    unfold stop at h
    dsimp only at h
    split at h
    · cases h
      assumption
    · repeat' split at h
      all_goals first
        | (cases h; rfl)
        | simp at h
  unfold stop
  rw [if_pos hopen]

/-- Witness for C9: stopping the concrete writer `writer0` once succeeds, and
stopping the result again returns it unchanged. -/
theorem C9_stop_idempotent_witness :
    stop ((stop writer0).getD writer0) = some ((stop writer0).getD writer0) :=
  C9_stop_idempotent writer0 ((stop writer0).getD writer0) (by rfl)

end MPEG4Writer
